import Mathlib

/-!
Shallow embedding of the room engine and client handshake of
`multiworld/src/lib.rs` (crate `multiworld`).

Modelling conventions:
* `SocketId` (Rust `RawFd`/`RawSocket`) and worlds (Rust `NonZeroU8`) are `Nat`;
  only equality of these values is ever used by the code.
* `HashMap`s (`Room::clients`, `Room::player_queues`) are association lists;
  the `HashMap` key-uniqueness guarantee becomes `Nodup` hypotheses on the
  theorems.  Removal of a key is `filter`, which coincides with removal of the
  single entry under key uniqueness.
* A client's outbound TCP write half is replaced by a failure oracle
  `fails : SocketId → Bool`: a write to client `c` returns `Err` exactly when
  `fails c = true` (the payload of the I/O error is irrelevant to the code).
  Successfully written messages are collected in a `Log` of
  (recipient, message) pairs.
* `Room::write` / `Room::write_all` / `Room::remove_client` are mutually
  recursive in the source (a failed write removes the client, which broadcasts
  a disconnect message, which may fail again...).  The embedding carries a
  size bound in a subtype so that this recursion is well-founded; the bound and
  the queue-preservation facts are termination/invariant scaffolding only.
* `connect_sync` performs socket I/O; the embedding keeps its control flow,
  replacing the stream by the peer's version byte and the room-name list it
  would deliver, and recording the protocol actions performed in a trace.
  The TLS session construction inside the `Encrypt` branch has no observable
  protocol content beyond "the stream is now encrypted" and is abstracted to
  the `StreamKind.Encrypted` tag.
-/

abbrev SocketId := Nat

abbrev World := Nat

def VERSION : Nat := 1

def PORT : Nat := 24809

def TRIFORCE_PIECE : Nat := 0xca

structure Player where
  world : World
  name : List Nat
deriving DecidableEq, Repr

def Player.DEFAULT_NAME : List Nat := List.replicate 8 0xdf

def Player.new (world : World) : Player :=
  { world := world, name := Player.DEFAULT_NAME }

structure Item where
  source : World
  key : Nat
  kind : Nat
deriving DecidableEq, Repr

inductive ServerMessage
  | Error (text : String)
  | EnterRoom (players : List Player) (num_unassigned_clients : Nat)
  | PlayerId (world : World)
  | ResetPlayerId (world : World)
  | ClientConnected
  | PlayerDisconnected (world : World)
  | UnregisteredClientDisconnected
  | PlayerName (world : World) (name : List Nat)
  | ItemQueue (kinds : List Nat)
  | GetItem (kind : Nat)
deriving DecidableEq, Repr

abbrev Log := List (SocketId × ServerMessage)

structure Room where
  password : String
  clients : List (SocketId × Option Player)
  base_queue : List Item
  player_queues : List (World × List Item)
deriving DecidableEq, Repr

def Room.keys (st : Room) : List SocketId :=
  st.clients.map Prod.fst

/-- Lookup in the `clients` map (`self.clients.get(&client_id)`), returning the
stored optional `Player` when the client is present. -/
def Room.getClient (st : Room) (c : SocketId) : Option (Option Player) :=
  (st.clients.find? (fun p => p.1 == c)).map Prod.snd

/-- In-place update of the `Player` slot of an existing client
(`self.clients.get_mut(&client_id).0 = ...`). -/
def Room.setPlayer (st : Room) (c : SocketId) (pl : Option Player) : Room :=
  { st with clients := st.clients.map (fun p => if p.1 == c then (p.1, pl) else p) }

/-- Removal of a client from the registry (`self.clients.remove(&client_id)`). -/
def Room.eraseClient (st : Room) (c : SocketId) : Room :=
  { st with clients := st.clients.filter (fun p => decide (p.1 ≠ c)) }

/-- Lookup in the `player_queues` map (`self.player_queues.get(&world)`). -/
def Room.lookupQueue (st : Room) (w : World) : Option (List Item) :=
  (st.player_queues.find? (fun p => p.1 == w)).map Prod.snd

/-- The clients not yet notified during a `write_all` loop:
`self.clients.iter().filter(|(client_id, _)| !notified.contains(client_id))`. -/
def pendingList (l : List (SocketId × Option Player)) (notified : List SocketId) :
    List (SocketId × Option Player) :=
  l.filter (fun p => decide (p.1 ∉ notified))

def Room.pendingEntries (st : Room) (notified : List SocketId) :
    List (SocketId × Option Player) :=
  pendingList st.clients notified

/-- The next client picked by the `write_all` loop
(`self.clients.iter().find(|(client_id, _)| !notified.contains(client_id))`). -/
def Room.findPending (st : Room) (notified : List SocketId) :
    Option (SocketId × Option Player) :=
  st.clients.find? (fun p => decide (p.1 ∉ notified))

/-- The disconnect notification chosen in `Room::remove_client`. -/
def disconnectMsg : Option Player → ServerMessage
  | some pl => ServerMessage.PlayerDisconnected pl.world
  | none => ServerMessage.UnregisteredClientDisconnected

mutual

/-- `Room::write_all` with the set of already `notified` clients made explicit.
Repeatedly picks a not-yet-notified client; a successful write appends
`(client, msg)` to the log, a failed write triggers `remove_client` (whose
disconnect broadcast is interleaved into the log) and the loop continues.
The subtype bound records that clients are never added and the item queues are
never touched, which also justifies termination. -/
def writeAllAux (fails : SocketId → Bool) (msg : ServerMessage) (st : Room)
    (notified : List SocketId) :
    {r : Room × Log // r.1.clients.length ≤ st.clients.length ∧
      r.1.base_queue = st.base_queue ∧ r.1.player_queues = st.player_queues ∧
      r.1.password = st.password} :=
  match h : st.findPending notified with
  | none => ⟨(st, []), by exact ⟨Nat.le_refl _, rfl, rfl, rfl⟩⟩
  | some (c, pl) =>
    if hf : fails c then
      match h1 : removeClientAux fails st c with
      | ⟨(st1, log1), hp1⟩ =>
        match h2 : writeAllAux fails msg st1 (c :: notified) with
        | ⟨(st2, log2), hp2⟩ =>
          ⟨(st2, log1 ++ log2), by
            exact ⟨Nat.le_trans hp2.1 hp1.2.1,
              hp2.2.1.trans hp1.2.2.1, hp2.2.2.1.trans hp1.2.2.2.1,
              hp2.2.2.2.trans hp1.2.2.2.2⟩⟩
    else
      match h2 : writeAllAux fails msg st (c :: notified) with
      | ⟨(st2, log2), hp2⟩ => ⟨(st2, (c, msg) :: log2), hp2⟩
termination_by (st.clients.length, (st.pendingEntries notified).length)
decreasing_by
  · -- a failing pending client is removed: same client count, the pending
    -- count is positive
    apply Prod.Lex.right
    have hmem := List.mem_of_find?_eq_some h
    have hp := List.find?_some h
    have hpe : (c, pl) ∈ st.pendingEntries notified :=
      List.mem_filter.mpr ⟨hmem, hp⟩
    exact List.length_pos.mpr (List.ne_nil_of_mem hpe)
  · -- continuing the loop after a removal: strictly fewer clients
    apply Prod.Lex.left
    have hmem := List.mem_of_find?_eq_some h
    have hc : c ∈ st.keys := by
      simpa [Room.keys] using List.mem_map_of_mem Prod.fst hmem
    exact hp1.1 hc
  · -- continuing the loop after a successful write: same clients,
    -- strictly fewer pending
    apply Prod.Lex.right
    have hmem := List.mem_of_find?_eq_some h
    have hp := List.find?_some h
    have hdec : st.pendingEntries (c :: notified) =
        (st.pendingEntries notified).filter (fun p => decide (p.1 ≠ c)) := by
      simp only [Room.pendingEntries, pendingList, List.filter_filter]
      refine List.filter_congr ?_
      intro a _
      by_cases h1 : a.1 = c <;> by_cases h2 : a.1 ∈ notified <;>
        simp [h1, h2, List.mem_cons]
    rw [hdec]
    refine List.length_filter_lt_length_iff_exists.mpr ?_
    exact ⟨(c, pl), List.mem_filter.mpr ⟨hmem, hp⟩, by simp⟩

/-- `Room::remove_client`: if the client is present, remove it from the
registry and broadcast the appropriate disconnect message to the remaining
clients.  Absent clients cause no change and no messages. -/
def removeClientAux (fails : SocketId → Bool) (st : Room) (c : SocketId) :
    {r : Room × Log // (c ∈ st.keys → r.1.clients.length < st.clients.length) ∧
      r.1.clients.length ≤ st.clients.length ∧
      r.1.base_queue = st.base_queue ∧ r.1.player_queues = st.player_queues ∧
      r.1.password = st.password} :=
  match hg : st.getClient c with
  | none => ⟨(st, []), by
      refine ⟨fun hc => absurd hc ?_, Nat.le_refl _, rfl, rfl, rfl⟩
      intro hmem
      simp only [Room.getClient, Option.map_eq_none'] at hg
      rw [List.find?_eq_none] at hg
      simp only [Room.keys, List.mem_map] at hmem
      obtain ⟨e, he, hek⟩ := hmem
      exact hg e he (by simp [hek])⟩
  | some player =>
    match h1 : writeAllAux fails (disconnectMsg player) (st.eraseClient c) [] with
    | ⟨(st1, log1), hp1⟩ =>
      ⟨(st1, log1), by
        obtain ⟨e, hfind⟩ : ∃ e, st.clients.find? (fun p => p.1 == c) = some e := by
          simp only [Room.getClient, Option.map_eq_some'] at hg
          obtain ⟨e, he, _⟩ := hg
          exact ⟨e, he⟩
        have hmem := List.mem_of_find?_eq_some hfind
        have hek : e.1 = c := by simpa using List.find?_some hfind
        have hlt : (st.eraseClient c).clients.length < st.clients.length := by
          simp only [Room.eraseClient]
          refine List.length_filter_lt_length_iff_exists.mpr ⟨e, hmem, ?_⟩
          simp [hek]
        refine ⟨fun _ => Nat.lt_of_le_of_lt hp1.1 hlt,
          Nat.le_trans hp1.1 (Nat.le_of_lt hlt), hp1.2.1, hp1.2.2.1, hp1.2.2.2⟩⟩
termination_by (st.clients.length, 0)
decreasing_by
  · -- the broadcast inside remove_client: strictly fewer clients
    apply Prod.Lex.left
    obtain ⟨e, hfind⟩ : ∃ e, st.clients.find? (fun p => p.1 == c) = some e := by
      simp only [Room.getClient, Option.map_eq_some'] at hg
      obtain ⟨e, he, _⟩ := hg
      exact ⟨e, he⟩
    have hmem := List.mem_of_find?_eq_some hfind
    have hek : e.1 = c := by simpa using List.find?_some hfind
    simp only [Room.eraseClient]
    refine List.length_filter_lt_length_iff_exists.mpr ?_
    exact ⟨e, hmem, by simp [hek]⟩

end

/-- `Room::write_all`: broadcast `msg` to every connected client, removing
clients whose write fails (which interleaves their disconnect broadcast). -/
def write_all (fails : SocketId → Bool) (msg : ServerMessage) (st : Room) :
    Room × Log :=
  (writeAllAux fails msg st []).val

/-- `Room::remove_client`. -/
def remove_client (fails : SocketId → Bool) (st : Room) (c : SocketId) :
    Room × Log :=
  (removeClientAux fails st c).val

/-- `Room::write`: unicast `msg` to client `c` if connected; a failed write
removes the client (broadcasting its disconnect message) and `msg` is lost. -/
def write (fails : SocketId → Bool) (st : Room) (c : SocketId)
    (msg : ServerMessage) : Room × Log :=
  match st.getClient c with
  | some _ => if fails c then remove_client fails st c else (st, [(c, msg)])
  | none => (st, [])

/-- Sequential unicasts (`for target_client in player_clients { self.write(...) }`). -/
def writeEach (fails : SocketId → Bool) (st : Room) (targets : List SocketId)
    (msg : ServerMessage) : Room × Log :=
  targets.foldl
    (fun acc t =>
      match write fails acc.1 t msg with
      | (st1, log1) => (st1, acc.2 ++ log1))
    (st, [])

/-- `Room::add_client`: everyone is notified before the new client is
registered, so the new client is never told about its own arrival. -/
def add_client (fails : SocketId → Bool) (st : Room) (client_id : SocketId) :
    Room × Log :=
  match write_all fails ServerMessage.ClientConnected st with
  | (st1, log1) => ({ st1 with clients := st1.clients ++ [(client_id, none)] }, log1)

/-- `Room::has_client`. -/
def has_client (st : Room) (client_id : SocketId) : Bool :=
  (st.getClient client_id).isSome

/-- The tail of `Room::load_player` after the world assignment has been made:
broadcast `PlayerId(world)`, then unicast the `ItemQueue` snapshot of the
target world's queue (falling back to `base_queue`) when it is non-empty. -/
def loadFinish (fails : SocketId → Bool) (st : Room) (client_id : SocketId)
    (world : World) (log0 : Log) : Room × Log :=
  match write_all fails (ServerMessage.PlayerId world) st with
  | (st3, log3) =>
    let queue := ((st3.lookupQueue world).getD st3.base_queue).map Item.kind
    if queue.isEmpty then (st3, log0 ++ log3)
    else
      match write fails st3 client_id (ServerMessage.ItemQueue queue) with
      | (st4, log4) => (st4, log0 ++ log3 ++ log4)

/-- `Room::load_player`.  Returns `none` exactly where the source panics
(`.expect("no such client")`, i.e. the client id is not registered). -/
def load_player (fails : SocketId → Bool) (st : Room) (client_id : SocketId)
    (world : World) : Option (Bool × Room × Log) :=
  if st.clients.any (fun p =>
      (match p.2 with
       | some pl => pl.world == world
       | none => false) && p.1 != client_id) then
    some (false, st, [])
  else
    match st.getClient client_id with
    | none => none
    | some (some player) =>
      let prev_world := player.world
      let st1 := st.setPlayer client_id (some { player with world := world })
      if prev_world == world then some (true, st1, [])
      else
        match write_all fails (ServerMessage.ResetPlayerId prev_world) st1 with
        | (st2, log2) =>
          match loadFinish fails st2 client_id world log2 with
          | (st3, log3) => some (true, st3, log3)
    | some none =>
      let st1 := st.setPlayer client_id (some (Player.new world))
      match loadFinish fails st1 client_id world [] with
      | (st3, log3) => some (true, st3, log3)

/-- `Room::unload_player`. -/
def unload_player (fails : SocketId → Bool) (st : Room) (client_id : SocketId) :
    Option (Room × Log) :=
  match st.getClient client_id with
  | none => none
  | some (some player) =>
    let st1 := st.setPlayer client_id none
    some (write_all fails (ServerMessage.ResetPlayerId player.world) st1)
  | some none => some (st, [])

/-- `Room::set_player_name`. -/
def set_player_name (fails : SocketId → Bool) (st : Room) (client_id : SocketId)
    (name : List Nat) : Option (Bool × Room × Log) :=
  match st.getClient client_id with
  | none => none
  | some (some player) =>
    let world := player.world
    let st1 := st.setPlayer client_id (some { player with name := name })
    match write_all fails (ServerMessage.PlayerName world name) st1 with
    | (st2, log2) => some (true, st2, log2)
  | some none => some (false, st, [])

/-- The in-place fork-or-append of `Room::queue_item`'s world-specific branch:
`self.player_queues.entry(target_world).or_insert_with(|| base_queue.clone()).push(item)`. -/
def Room.pushWorldQueue (st : Room) (w : World) (item : Item) : Room :=
  match st.lookupQueue w with
  | some q =>
    { st with player_queues :=
        st.player_queues.map (fun p => if p.1 == w then (p.1, q ++ [item]) else p) }
  | none =>
    { st with player_queues := st.player_queues ++ [(w, st.base_queue ++ [item])] }

/-- `Room::queue_item`.  Returns `none` exactly where the source panics
(unknown `source_client`); returns `some (false, ..)` when the sender has no
world (the `SendItem` is rejected). -/
def queue_item (fails : SocketId → Bool) (st : Room) (source_client : SocketId)
    (key : Nat) (kind : Nat) (target_world : World) : Option (Bool × Room × Log) :=
  match st.getClient source_client with
  | none => none
  | some none => some (false, st, [])
  | some (some source_player) =>
    let source := source_player.world
    if kind == TRIFORCE_PIECE then
      if !(st.base_queue.any (fun it => it.source == source && it.key == key)) then
        let item : Item := { source := source, key := key, kind := kind }
        let st1 : Room :=
          { st with base_queue := st.base_queue ++ [item],
                    player_queues := st.player_queues.map (fun p => (p.1, p.2 ++ [item])) }
        let player_clients := st1.clients.filterMap (fun p =>
          match p.2 with
          | some pl => if pl.world != source then some p.1 else none
          | none => none)
        match writeEach fails st1 player_clients (ServerMessage.GetItem kind) with
        | (st2, log2) => some (true, st2, log2)
      else some (true, st, [])
    else
      if !(match st.lookupQueue target_world with
           | some q => q.any (fun it => it.source == source && it.key == key)
           | none => false) then
        let st1 := st.pushWorldQueue target_world
          { source := source, key := key, kind := kind }
        match st1.clients.find? (fun p =>
            match p.2 with
            | some pl => pl.world == target_world
            | none => false) with
        | some tc =>
          match write fails st1 tc.1 (ServerMessage.GetItem kind) with
          | (st2, log2) => some (true, st2, log2)
        | none => some (true, st1, [])
      else some (true, st, [])

inductive ClientError
  | Io
  | Read
  | VersionMismatch (version : Nat)
  | Write
deriving DecidableEq, Repr

inductive Host
  | DefaultIpv6
  | DefaultIpv4
  | Custom (addrs : List Nat)
deriving DecidableEq, Repr

inductive StreamKind
  | Encrypted
  | Unencrypted
deriving DecidableEq, Repr

/-- The externally visible protocol actions of `connect_sync`, in order. -/
inductive HandshakeEvent
  | wroteVersion (v : Nat)
  | readVersion (v : Nat)
  | wroteEncrypt
  | readRoomList (rooms : List String)
deriving DecidableEq, Repr

/-- `connect_sync`, with the TCP stream replaced by the peer's version byte and
the room-name set the server would deliver.  The returned trace records every
protocol action the function performs before returning. -/
def connect_sync (host : Host) (server_version : Nat) (rooms : List String) :
    List HandshakeEvent × Except ClientError (StreamKind × List String) :=
  let ev0 := [HandshakeEvent.wroteVersion VERSION, HandshakeEvent.readVersion server_version]
  if server_version != VERSION then
    (ev0, Except.error (ClientError.VersionMismatch server_version))
  else
    match host with
    | Host.DefaultIpv4 | Host.DefaultIpv6 =>
      (ev0 ++ [HandshakeEvent.wroteEncrypt, HandshakeEvent.readRoomList rooms],
       Except.ok (StreamKind.Encrypted, rooms))
    | Host.Custom _ =>
      (ev0 ++ [HandshakeEvent.readRoomList rooms],
       Except.ok (StreamKind.Unencrypted, rooms))

/-- The (`source`,`key`) identity of each queued item; the deduplication
guards of `Room::queue_item` compare items by this pair. -/
def itemPairs (q : List Item) : List (Nat × Nat) :=
  q.map (fun it => (it.source, it.key))

/-- Queue invariant of a `Room`, relative to an assignment `kindOf` of an item
kind to every (`source`,`key`) pair: `base_queue` holds exactly the shared-kind
items and is duplicate-free, every per-world queue contains the base queue's
shared items (in order) and is itself duplicate-free, and every queued item's
kind agrees with `kindOf`. -/
def QueueInv (kindOf : Nat → Nat → Nat) (st : Room) : Prop :=
  (∀ it ∈ st.base_queue, it.kind = TRIFORCE_PIECE) ∧
  (itemPairs st.base_queue).Nodup ∧
  (∀ p ∈ st.player_queues,
    p.2.filter (fun it => it.kind == TRIFORCE_PIECE) = st.base_queue) ∧
  (∀ p ∈ st.player_queues, (itemPairs p.2).Nodup) ∧
  (∀ it ∈ st.base_queue, it.kind = kindOf it.source it.key) ∧
  (∀ p ∈ st.player_queues, ∀ it ∈ p.2, it.kind = kindOf it.source it.key)

/-- Replay of a sequence of `SendItem` commands `(client, key, target_world)`
through `Room::queue_item`, where each sent item's kind is determined by
`kindOf` from the sender's world and the key (commands from absent or
unassigned clients leave the room unchanged, as in the source). -/
def runQueueItems (fails : SocketId → Bool) (kindOf : Nat → Nat → Nat)
    (st : Room) (cmds : List (SocketId × Nat × World)) : Room :=
  cmds.foldl
    (fun s cmd =>
      match s.getClient cmd.1 with
      | some (some p) =>
        match queue_item fails s cmd.1 cmd.2.1 (kindOf p.world cmd.2.1) cmd.2.2 with
        | some r => r.2.1
        | none => s
      | _ => s)
    st

/-! Step equations for the mutually recursive broadcast functions, and
behaviour lemmas under explicit failure assumptions. -/

theorem writeAllAux_none (fails : SocketId → Bool) (msg : ServerMessage) (st : Room)
    (notified : List SocketId) (h : st.findPending notified = none) :
    (writeAllAux fails msg st notified).val = (st, []) := by
  rw [writeAllAux]
  split
  · rfl
  · rename_i c pl heq
    rw [h] at heq
    exact absurd heq (by simp)

theorem writeAllAux_success (fails : SocketId → Bool) (msg : ServerMessage) (st : Room)
    (notified : List SocketId) (c : SocketId) (pl : Option Player)
    (h : st.findPending notified = some (c, pl)) (hf : fails c = false) :
    (writeAllAux fails msg st notified).val =
      ((writeAllAux fails msg st (c :: notified)).val.1,
       (c, msg) :: (writeAllAux fails msg st (c :: notified)).val.2) := by
  rw [writeAllAux]
  split
  · rename_i heq
    rw [h] at heq
    exact absurd heq (by simp)
  · rename_i c' pl' heq
    rw [h] at heq
    injection heq with heq'
    injection heq' with hc hpl
    subst hc
    subst hpl
    rw [dif_neg (by simp [hf])]

theorem writeAllAux_fail (fails : SocketId → Bool) (msg : ServerMessage) (st : Room)
    (notified : List SocketId) (c : SocketId) (pl : Option Player)
    (h : st.findPending notified = some (c, pl)) (hf : fails c = true) :
    (writeAllAux fails msg st notified).val =
      ((writeAllAux fails msg (removeClientAux fails st c).val.1 (c :: notified)).val.1,
       (removeClientAux fails st c).val.2 ++
         (writeAllAux fails msg (removeClientAux fails st c).val.1 (c :: notified)).val.2) := by
  rw [writeAllAux]
  split
  · rename_i heq
    rw [h] at heq
    exact absurd heq (by simp)
  · rename_i c' pl' heq
    rw [h] at heq
    injection heq with heq'
    injection heq' with hc hpl
    subst hc
    subst hpl
    rw [dif_pos hf]

theorem removeClientAux_none (fails : SocketId → Bool) (st : Room) (c : SocketId)
    (hg : st.getClient c = none) :
    (removeClientAux fails st c).val = (st, []) := by
  rw [removeClientAux]
  split
  · rfl
  · rename_i player heq
    rw [hg] at heq
    exact absurd heq (by simp)

theorem removeClientAux_some (fails : SocketId → Bool) (st : Room) (c : SocketId)
    (player : Option Player) (hg : st.getClient c = some player) :
    (removeClientAux fails st c).val =
      (writeAllAux fails (disconnectMsg player) (st.eraseClient c) []).val := by
  rw [removeClientAux]
  split
  · rename_i heq
    rw [hg] at heq
    exact absurd heq (by simp)
  · rename_i player' heq
    rw [hg] at heq
    injection heq with heq'
    subst heq'
    rcases h1 : writeAllAux fails (disconnectMsg player) (st.eraseClient c) [] with ⟨⟨st1, log1⟩, hp1⟩
    simp [h1]

theorem pendingEntries_nil (st : Room) : st.pendingEntries [] = st.clients := by
  simp only [Room.pendingEntries, pendingList]
  refine List.filter_eq_self.mpr ?_
  intro a _
  simp

theorem pendingEntries_cons_eq (st : Room) (notified : List SocketId) (c : SocketId) :
    st.pendingEntries (c :: notified) =
      (st.pendingEntries notified).filter (fun p => decide (p.1 ≠ c)) := by
  simp only [Room.pendingEntries, pendingList, List.filter_filter]
  refine List.filter_congr ?_
  intro a _
  by_cases h1 : a.1 = c <;> by_cases h2 : a.1 ∈ notified <;>
    simp [h1, h2, List.mem_cons]

theorem findPending_none_pending (st : Room) (notified : List SocketId)
    (h : st.findPending notified = none) : st.pendingEntries notified = [] := by
  simp only [Room.pendingEntries, pendingList]
  rw [List.filter_eq_nil_iff]
  intro a ha
  have := List.find?_eq_none.mp h a ha
  simpa using this

theorem find?_head_filter {α : Type} (p : α → Bool) :
    ∀ (l : List α) (e : α), l.find? p = some e → ∃ t, l.filter p = e :: t := by
  intro l
  induction l with
  | nil => intro e h; simp at h
  | cons a l ih =>
    intro e h
    by_cases hp : p a
    · rw [List.find?_cons_of_pos _ hp] at h
      injection h with h
      subst h
      exact ⟨l.filter p, by rw [List.filter_cons_of_pos hp]⟩
    · rw [List.find?_cons_of_neg _ (by simpa using hp)] at h
      obtain ⟨t, ht⟩ := ih e h
      exact ⟨t, by rw [List.filter_cons_of_neg (by simpa using hp), ht]⟩

theorem pending_cons (st : Room) (notified : List SocketId) (c : SocketId)
    (pl : Option Player) (hnd : st.keys.Nodup)
    (h : st.findPending notified = some (c, pl)) :
    st.pendingEntries notified = (c, pl) :: st.pendingEntries (c :: notified) := by
  obtain ⟨t, ht⟩ := find?_head_filter _ st.clients (c, pl) h
  have hpe : st.pendingEntries notified = (c, pl) :: t := ht
  have hsub : ((c, pl) :: t).Sublist st.clients := by
    rw [← ht]
    exact List.filter_sublist _
  have hknd : (((c, pl) :: t).map Prod.fst).Nodup :=
    (hsub.map Prod.fst).nodup hnd
  have hcnot : ∀ a ∈ t, a.1 ≠ c := by
    intro a ha hac
    simp only [List.map_cons] at hknd
    exact (List.nodup_cons.mp hknd).1
      (by simpa [hac] using List.mem_map_of_mem Prod.fst ha)
  rw [pendingEntries_cons_eq, hpe]
  rw [List.filter_cons_of_neg (by simp)]
  congr 1
  refine (List.filter_eq_self.mpr ?_).symm
  intro a ha
  simpa using hcnot a ha

theorem getClient_none_not_mem (st : Room) (c : SocketId)
    (hg : st.getClient c = none) : c ∉ st.keys := by
  intro hmem
  simp only [Room.getClient, Option.map_eq_none'] at hg
  rw [List.find?_eq_none] at hg
  simp only [Room.keys, List.mem_map] at hmem
  obtain ⟨e, he, hek⟩ := hmem
  exact hg e he (by simp [hek])

theorem getClient_some_mem (st : Room) (c : SocketId) (pl : Option Player)
    (hg : st.getClient c = some pl) : (c, pl) ∈ st.clients := by
  simp only [Room.getClient, Option.map_eq_some'] at hg
  obtain ⟨e, he, hsnd⟩ := hg
  have hmem := List.mem_of_find?_eq_some he
  have hfst : e.1 = c := by simpa using List.find?_some he
  have : e = (c, pl) := Prod.ext hfst hsnd
  rwa [this] at hmem

theorem find?_key_of_mem {β : Type} :
    ∀ (l : List (Nat × β)) (c : Nat) (v : β),
    (l.map Prod.fst).Nodup → (c, v) ∈ l →
    l.find? (fun p => p.1 == c) = some (c, v) := by
  intro l
  induction l with
  | nil => intro c v _ hmem; simp at hmem
  | cons a l ih =>
    intro c v hnd hmem
    simp only [List.map_cons, List.nodup_cons] at hnd
    rcases List.mem_cons.mp hmem with h | h
    · rw [← h]
      exact List.find?_cons_of_pos _ (by simp)
    · have hac : a.1 ≠ c := by
        intro hac
        exact hnd.1 (by simpa [hac] using List.mem_map_of_mem Prod.fst h)
      rw [List.find?_cons_of_neg _ (by simp [hac])]
      exact ih c v hnd.2 h

theorem mem_getClient (st : Room) (c : SocketId) (pl : Option Player)
    (hnd : st.keys.Nodup) (hmem : (c, pl) ∈ st.clients) :
    st.getClient c = some pl := by
  simp only [Room.getClient]
  rw [find?_key_of_mem st.clients c pl hnd hmem]
  rfl

theorem mem_keys_iff_getClient (st : Room) (c : SocketId) :
    c ∈ st.keys ↔ (st.getClient c).isSome := by
  constructor
  · intro hmem
    cases hg : st.getClient c with
    | none => exact absurd hmem (getClient_none_not_mem st c hg)
    | some pl => rfl
  · intro hsome
    cases hg : st.getClient c with
    | none => rw [hg] at hsome; simp at hsome
    | some pl =>
      exact List.mem_map_of_mem Prod.fst (getClient_some_mem st c pl hg)

/-- No-failure run of the `write_all` loop: the state is unchanged and every
pending client receives exactly the broadcast message, in registry order. -/
theorem writeAllAux_noFail (fails : SocketId → Bool) (msg : ServerMessage)
    (st : Room) (hnd : st.keys.Nodup)
    (hf : ∀ c ∈ st.keys, fails c = false) :
    ∀ notified, (writeAllAux fails msg st notified).val =
      (st, (st.pendingEntries notified).map (fun e => (e.1, msg))) := by
  suffices h : ∀ n notified, (st.pendingEntries notified).length = n →
      (writeAllAux fails msg st notified).val =
        (st, (st.pendingEntries notified).map (fun e => (e.1, msg))) by
    intro notified
    exact h _ notified rfl
  intro n
  induction n using Nat.strong_induction_on with
  | _ n ih =>
    intro notified hn
    cases hfp : st.findPending notified with
    | none =>
      rw [writeAllAux_none fails msg st notified hfp,
        findPending_none_pending st notified hfp]
      rfl
    | some e =>
      obtain ⟨c, pl⟩ := e
      have hcmem : c ∈ st.keys := by
        simpa [Room.keys] using
          List.mem_map_of_mem Prod.fst (List.mem_of_find?_eq_some hfp)
      rw [writeAllAux_success fails msg st notified c pl hfp (hf c hcmem)]
      have hdc := pending_cons st notified c pl hnd hfp
      have hlen : (st.pendingEntries (c :: notified)).length < n := by
        rw [← hn, hdc]
        simp
      rw [ih _ hlen (c :: notified) rfl, hdc]
      rfl

/-- `Room::write_all` without failures: no client is removed and every
currently connected client receives the message exactly once, in registry
order. -/
theorem write_all_noFail (fails : SocketId → Bool) (msg : ServerMessage)
    (st : Room) (hnd : st.keys.Nodup)
    (hf : ∀ c ∈ st.keys, fails c = false) :
    write_all fails msg st = (st, st.clients.map (fun e => (e.1, msg))) := by
  rw [write_all, writeAllAux_noFail fails msg st hnd hf [], pendingEntries_nil]

theorem keys_eraseClient (st : Room) (c : SocketId) :
    (st.eraseClient c).keys = st.keys.filter (fun k => decide (k ≠ c)) := by
  simp only [Room.eraseClient, Room.keys, List.filter_map]
  rfl

theorem keys_eraseClient_nodup (st : Room) (c : SocketId) (hnd : st.keys.Nodup) :
    (st.eraseClient c).keys.Nodup := by
  rw [keys_eraseClient]
  exact hnd.filter _

/-- `Room::remove_client` on an absent client id: no change, no messages
(for any failure pattern). -/
theorem remove_client_absent (fails : SocketId → Bool) (st : Room) (c : SocketId)
    (hg : st.getClient c = none) : remove_client fails st c = (st, []) := by
  rw [remove_client, removeClientAux_none fails st c hg]

/-- `Room::remove_client` on a present client, when no further write fails:
the client is removed and every remaining client receives exactly its
disconnect message. -/
theorem remove_client_present (fails : SocketId → Bool) (st : Room) (c : SocketId)
    (player : Option Player) (hnd : st.keys.Nodup)
    (hf : ∀ c' ∈ (st.eraseClient c).keys, fails c' = false)
    (hg : st.getClient c = some player) :
    remove_client fails st c =
      (st.eraseClient c,
       (st.eraseClient c).clients.map (fun e => (e.1, disconnectMsg player))) := by
  rw [remove_client, removeClientAux_some fails st c player hg]
  exact writeAllAux_noFail fails (disconnectMsg player) (st.eraseClient c)
    (keys_eraseClient_nodup st c hnd) hf [] |>.trans (by rw [pendingEntries_nil])

/-- `Room::write` to a connected client whose write succeeds. -/
theorem write_success (fails : SocketId → Bool) (st : Room) (c : SocketId)
    (msg : ServerMessage) (pl : Option Player)
    (hg : st.getClient c = some pl) (hf : fails c = false) :
    write fails st c msg = (st, [(c, msg)]) := by
  rw [write, hg]
  simp [hf]

/-- `Room::write` to an absent client id: nothing happens. -/
theorem write_absent (fails : SocketId → Bool) (st : Room) (c : SocketId)
    (msg : ServerMessage) (hg : st.getClient c = none) :
    write fails st c msg = (st, []) := by
  rw [write, hg]

theorem writeEach_aux (fails : SocketId → Bool) (msg : ServerMessage) :
    ∀ (targets : List SocketId) (st : Room) (log0 : Log),
    (∀ t ∈ targets, (st.getClient t).isSome ∧ fails t = false) →
    targets.foldl
      (fun acc t =>
        match write fails acc.1 t msg with
        | (st1, log1) => (st1, acc.2 ++ log1))
      (st, log0) = (st, log0 ++ targets.map (fun t => (t, msg))) := by
  intro targets
  induction targets with
  | nil => intro st log0 _; simp
  | cons t ts ih =>
    intro st log0 h
    obtain ⟨hsome, hfe⟩ := h t (List.mem_cons_self t ts)
    cases hg : st.getClient t with
    | none => rw [hg] at hsome; simp at hsome
    | some pl =>
      simp only [List.foldl_cons, write_success fails st t msg pl hg hfe]
      rw [ih st (log0 ++ [(t, msg)]) (fun x hx => h x (List.mem_cons_of_mem t hx))]
      simp

/-- Sequential unicasts without failure: the state is unchanged and every
target receives exactly one copy of the message, in order. -/
theorem writeEach_noFail (fails : SocketId → Bool) (msg : ServerMessage)
    (st : Room) (targets : List SocketId)
    (h : ∀ t ∈ targets, (st.getClient t).isSome ∧ fails t = false) :
    writeEach fails st targets msg = (st, targets.map (fun t => (t, msg))) := by
  rw [writeEach, writeEach_aux fails msg targets st [] h]
  simp

theorem keys_setPlayer (st : Room) (c : SocketId) (pl : Option Player) :
    (st.setPlayer c pl).keys = st.keys := by
  simp only [Room.setPlayer, Room.keys, List.map_map]
  refine List.map_congr_left ?_
  intro a _
  by_cases h : a.1 = c <;> simp [h, Function.comp]

theorem find?_set_key {β : Type} (v : β) :
    ∀ (l : List (Nat × β)) (c : Nat), c ∈ l.map Prod.fst →
    (l.map (fun p => if p.1 == c then (p.1, v) else p)).find? (fun p => p.1 == c) =
      some (c, v) := by
  intro l
  induction l with
  | nil => intro c h; simp at h
  | cons a l ih =>
    intro c h
    by_cases hac : a.1 = c
    · simp only [List.map_cons, if_pos (show (a.1 == c) = true by simp [hac])]
      rw [List.find?_cons_of_pos _ (by simp [hac])]
      simp [hac]
    · simp only [List.map_cons, if_neg (show ¬ (a.1 == c) = true by simp [hac])]
      rw [List.find?_cons_of_neg _ (by simp [hac])]
      refine ih c ?_
      simp only [List.map_cons, List.mem_cons] at h
      rcases h with h | h
      · exact absurd h.symm hac
      · exact h

theorem getClient_setPlayer_self (st : Room) (c : SocketId) (pl : Option Player)
    (hmem : c ∈ st.keys) : (st.setPlayer c pl).getClient c = some pl := by
  simp only [Room.setPlayer, Room.getClient]
  rw [find?_set_key pl st.clients c hmem]
  rfl

theorem map_set_key_id {β : Type} :
    ∀ (l : List (Nat × β)) (c : Nat) (v : β),
    (l.map Prod.fst).Nodup → (c, v) ∈ l →
    l.map (fun p => if p.1 == c then (p.1, v) else p) = l := by
  intro l
  induction l with
  | nil => intro c v _ _; rfl
  | cons a l ih =>
    intro c v hnd hmem
    simp only [List.map_cons, List.nodup_cons] at hnd
    rcases List.mem_cons.mp hmem with h | h
    · have hav : a = (c, v) := h.symm
      have hac : a.1 = c := by rw [hav]
      simp only [List.map_cons, if_pos (show (a.1 == c) = true by simp [hac])]
      rw [hav]
      congr 1
      have hall : ∀ b ∈ l, (if b.1 == c then (b.1, v) else b) = b := by
        intro b hb
        have hbc : b.1 ≠ c := by
          intro hbc
          refine hnd.1 ?_
          rw [hac, ← hbc]
          exact List.mem_map_of_mem Prod.fst hb
        simp [hbc]
      rw [List.map_congr_left hall]
      simp
    · have hac : a.1 ≠ c := by
        intro hac
        have : c ∈ l.map Prod.fst := by
          simpa using List.mem_map_of_mem Prod.fst h
        exact hnd.1 (hac ▸ this)
      simp only [List.map_cons, if_neg (show ¬ (a.1 == c) = true by simp [hac])]
      rw [ih c v hnd.2 h]

/-- Writing back the player value that is already stored does not change the
room (`mem::replace` with an equal world). -/
theorem setPlayer_id (st : Room) (c : SocketId) (pl : Option Player)
    (hnd : st.keys.Nodup) (hg : st.getClient c = some pl) :
    st.setPlayer c pl = st := by
  have hmem := getClient_some_mem st c pl hg
  simp only [Room.setPlayer]
  have := map_set_key_id st.clients c pl (by simpa [Room.keys] using hnd) hmem
  rw [this]

theorem find?_map_keyfix {β γ : Type} (f : β → γ) :
    ∀ (l : List (Nat × β)) (w : Nat),
    (l.map (fun p => (p.1, f p.2))).find? (fun p => p.1 == w) =
      (l.find? (fun p => p.1 == w)).map (fun p => (p.1, f p.2)) := by
  intro l
  induction l with
  | nil => intro w; rfl
  | cons a l ih =>
    intro w
    by_cases h : a.1 = w
    · simp only [List.map_cons]
      rw [List.find?_cons_of_pos _ (by simp [h]), List.find?_cons_of_pos _ (by simp [h])]
      rfl
    · simp only [List.map_cons]
      rw [List.find?_cons_of_neg _ (by simp [h]), List.find?_cons_of_neg _ (by simp [h])]
      exact ih w

theorem assoc_update_found {β : Type} (q' : β) :
    ∀ (l : List (Nat × β)) (w : Nat) (e : Nat × β),
    l.find? (fun p => p.1 == w) = some e →
    (l.map (fun p => if p.1 == w then (p.1, q') else p)).find? (fun p => p.1 == w) =
      some (w, q') := by
  intro l
  induction l with
  | nil => intro w e h; simp at h
  | cons a l ih =>
    intro w e h
    by_cases hw : a.1 = w
    · simp only [List.map_cons]
      rw [if_pos (show (a.1 == w) = true by simp [hw])]
      rw [List.find?_cons_of_pos _ (by simp [hw])]
      simp [hw]
    · simp only [List.map_cons]
      rw [List.find?_cons_of_neg _ (by simp [hw])] at h
      rw [if_neg (by simp [hw])]
      rw [List.find?_cons_of_neg _ (by simp [hw])]
      exact ih w e h

theorem find?_append_none {β : Type} (p : β → Bool) :
    ∀ (l1 l2 : List β), l1.find? p = none → (l1 ++ l2).find? p = l2.find? p := by
  intro l1
  induction l1 with
  | nil => intro l2 _; rfl
  | cons a l ih =>
    intro l2 h
    by_cases hp : p a
    · rw [List.find?_cons_of_pos _ hp] at h
      exact absurd h (by simp)
    · rw [List.find?_cons_of_neg _ (by simpa using hp)] at h
      rw [List.cons_append, List.find?_cons_of_neg _ (by simpa using hp)]
      exact ih l2 h

theorem pushWorldQueue_clients (st : Room) (w : World) (item : Item) :
    (st.pushWorldQueue w item).clients = st.clients := by
  rw [Room.pushWorldQueue]
  split <;> rfl

theorem pushWorldQueue_base (st : Room) (w : World) (item : Item) :
    (st.pushWorldQueue w item).base_queue = st.base_queue := by
  rw [Room.pushWorldQueue]
  split <;> rfl

/-- Forking: the first world-specific item for `w` creates `player_queues[w]`
as a copy of the current `base_queue` with the item appended. -/
theorem pushWorldQueue_lookup_new (st : Room) (w : World) (item : Item)
    (h : st.lookupQueue w = none) :
    (st.pushWorldQueue w item).lookupQueue w = some (st.base_queue ++ [item]) := by
  rw [Room.pushWorldQueue, h]
  simp only [Room.lookupQueue]
  rw [find?_append_none]
  · rw [List.find?_cons_of_pos _ (by simp)]
    rfl
  · simp only [Room.lookupQueue, Option.map_eq_none'] at h
    exact h

/-- Appending to an existing per-world queue. -/
theorem pushWorldQueue_lookup_existing (st : Room) (w : World) (item : Item)
    (q : List Item) (h : st.lookupQueue w = some q) :
    (st.pushWorldQueue w item).lookupQueue w = some (q ++ [item]) := by
  rw [Room.pushWorldQueue, h]
  simp only [Room.lookupQueue]
  simp only [Room.lookupQueue, Option.map_eq_some'] at h
  obtain ⟨e, he, hsnd⟩ := h
  rw [assoc_update_found (q ++ [item]) st.player_queues w e he]
  rfl

/-- A shared item pushed onto `base_queue` is pushed onto every existing
per-world queue as well. -/
theorem lookupQueue_shared_push (st : Room) (item : Item) (w : World) :
    (Room.mk st.password st.clients (st.base_queue ++ [item])
        (st.player_queues.map (fun p => (p.1, p.2 ++ [item])))).lookupQueue w =
      (st.lookupQueue w).map (fun q => q ++ [item]) := by
  simp only [Room.lookupQueue]
  rw [find?_map_keyfix (fun q => q ++ [item]) st.player_queues w]
  cases st.player_queues.find? (fun p => p.1 == w) <;> rfl

theorem count_map_pair_eq (l : List SocketId) (c : SocketId) (msg : ServerMessage) :
    (l.map (fun t => (t, msg))).count (c, msg) = l.count c := by
  induction l with
  | nil => rfl
  | cons a l ih =>
    simp only [List.map_cons, List.count_cons, ih]
    congr 1
    by_cases h : a = c <;> simp [h]

theorem count_map_pair_ne (l : List SocketId) (c : SocketId)
    (msg m' : ServerMessage) (h : m' ≠ msg) :
    (l.map (fun t => (t, msg))).count (c, m') = 0 := by
  rw [List.count_eq_zero]
  intro hmem
  obtain ⟨t, _, ht⟩ := List.mem_map.mp hmem
  exact h (by injection ht with h1 h2; exact h2.symm)

/-- C3: once some client holds world `w`, a different client's `PlayerId(w)`
claim returns false, changes no assignment, broadcasts nothing and touches no
queue: `load_player` returns `(false, st, [])` with the room unchanged, for any
failure pattern. -/
theorem C3_second_claim_noop (fails : SocketId → Bool) (st : Room)
    (client_id c2 : SocketId) (w : World) (p2 : Player)
    (hmem : (c2, some p2) ∈ st.clients) (hw : p2.world = w)
    (hne : c2 ≠ client_id) :
    load_player fails st client_id w = some (false, st, []) := by
  unfold load_player
  rw [if_pos ?_]
  refine List.any_eq_true.mpr ⟨(c2, some p2), hmem, ?_⟩
  simp [hw, hne]

/-- Witness for C3 at a concrete two-client room. -/
theorem C3_witness :
    ((0, some (Player.new 1)) ∈ (Room.mk "" [(0, some (Player.new 1)), (1, none)] [] []).clients ∧
     (Player.new 1).world = 1 ∧ (0 : SocketId) ≠ 1) ∧
    load_player (fun _ => false) (Room.mk "" [(0, some (Player.new 1)), (1, none)] [] []) 1 1 =
      some (false, Room.mk "" [(0, some (Player.new 1)), (1, none)] [] [], []) :=
  ⟨⟨by decide, by decide, by decide⟩,
   C3_second_claim_noop (fun _ => false) _ 1 0 1 (Player.new 1)
     (by decide) (by decide) (by decide)⟩

/-- C7: a `SendItem` from a client with no world assigned is rejected:
`queue_item` returns false and the room is unchanged, with no messages, for
any failure pattern. -/
theorem C7_unassigned_send_rejected (fails : SocketId → Bool) (st : Room)
    (c : SocketId) (key kind : Nat) (tw : World)
    (hg : st.getClient c = some none) :
    queue_item fails st c key kind tw = some (false, st, []) := by
  unfold queue_item
  rw [hg]

/-- Witness for C7 at a concrete room with one unassigned client. -/
theorem C7_witness :
    (Room.mk "" [(1, none)] [] []).getClient 1 = some none ∧
    queue_item (fun _ => false) (Room.mk "" [(1, none)] [] []) 1 5 99 2 =
      some (false, Room.mk "" [(1, none)] [] [], []) :=
  ⟨by decide, C7_unassigned_send_rejected (fun _ => false) _ 1 5 99 2 (by decide)⟩

/-- C9: if the version byte read from the server differs from the local
protocol `VERSION`, `connect_sync` fails with `VersionMismatch` carrying the
server's version, performing no protocol action after the version exchange:
no `Encrypt` is sent and no room-name list is read. -/
theorem C9_version_mismatch (host : Host) (server_version : Nat)
    (rooms : List String) (h : server_version ≠ VERSION) :
    connect_sync host server_version rooms =
      ([HandshakeEvent.wroteVersion VERSION, HandshakeEvent.readVersion server_version],
       Except.error (ClientError.VersionMismatch server_version)) ∧
    HandshakeEvent.wroteEncrypt ∉ (connect_sync host server_version rooms).1 ∧
    (∀ rs, HandshakeEvent.readRoomList rs ∉ (connect_sync host server_version rooms).1) := by
  have heq : connect_sync host server_version rooms =
      ([HandshakeEvent.wroteVersion VERSION, HandshakeEvent.readVersion server_version],
       Except.error (ClientError.VersionMismatch server_version)) := by
    unfold connect_sync
    rw [if_pos (by simp [h])]
  refine ⟨heq, ?_, ?_⟩
  · rw [heq]
    simp
  · intro rs
    rw [heq]
    simp

/-- Witness for C9: a server announcing version 2 is rejected. -/
theorem C9_witness :
    (2 : Nat) ≠ VERSION ∧
    connect_sync (Host.Custom []) 2 [] =
      ([HandshakeEvent.wroteVersion VERSION, HandshakeEvent.readVersion 2],
       Except.error (ClientError.VersionMismatch 2)) :=
  ⟨by decide, (C9_version_mismatch (Host.Custom []) 2 [] (by decide)).1⟩

/-- C10: a client already holding `w` that claims `w` again gets `true` back
immediately: no `ResetPlayerId`, `PlayerId` or `ItemQueue` message is sent and
the room is unchanged, for any failure pattern. -/
theorem C10_reclaim_same_world_noop (fails : SocketId → Bool) (st : Room)
    (c : SocketId) (pl : Player) (w : World) (hnd : st.keys.Nodup)
    (hg : st.getClient c = some (some pl)) (hw : pl.world = w)
    (honly : ∀ e ∈ st.clients, e.2.map Player.world = some w → e.1 = c) :
    load_player fails st c w = some (true, st, []) := by
  unfold load_player
  rw [if_neg ?hany]
  case hany =>
    intro hany
    obtain ⟨e, hmem, hpred⟩ := List.any_eq_true.mp hany
    rw [Bool.and_eq_true] at hpred
    obtain ⟨hworld, hbne⟩ := hpred
    cases he2 : e.2 with
    | none => rw [he2] at hworld; simp at hworld
    | some q =>
      rw [he2] at hworld
      have hqw : q.world = w := by simpa using hworld
      have : e.1 = c := honly e hmem (by rw [he2, Option.map_some', hqw])
      rw [this] at hbne
      simp at hbne
  simp only [hg]
  rw [if_pos (show (pl.world == w) = true by simp [hw])]
  have hpl : ({ pl with world := w } : Player) = pl := by rw [← hw]
  rw [hpl, setPlayer_id st c (some pl) hnd hg]

/-- Witness for C10 at a concrete one-client room. -/
theorem C10_witness :
    ((Room.mk "" [(0, some (Player.new 1))] [] []).keys.Nodup ∧
     (Room.mk "" [(0, some (Player.new 1))] [] []).getClient 0 = some (some (Player.new 1)) ∧
     (Player.new 1).world = 1 ∧
     (∀ e ∈ (Room.mk "" [(0, some (Player.new 1))] [] []).clients,
        e.2.map Player.world = some 1 → e.1 = 0)) ∧
    load_player (fun _ => false) (Room.mk "" [(0, some (Player.new 1))] [] []) 0 1 =
      some (true, Room.mk "" [(0, some (Player.new 1))] [] [], []) :=
  ⟨⟨by decide, by decide, by decide, by decide⟩,
   C10_reclaim_same_world_noop (fun _ => false) _ 0 (Player.new 1) 1
     (by decide) (by decide) (by decide) (by decide)⟩

theorem filterMap_key_sublist {β : Type} (f : Nat × β → Option Nat)
    (hf : ∀ e, f e = none ∨ f e = some e.1) :
    ∀ l : List (Nat × β), (l.filterMap f).Sublist (l.map Prod.fst) := by
  intro l
  induction l with
  | nil => simp
  | cons a l ih =>
    rcases hf a with h | h
    · rw [List.filterMap_cons_none h, List.map_cons]
      exact ih.cons a.1
    · rw [List.filterMap_cons_some h, List.map_cons]
      exact ih.cons₂ a.1

/-- C1: a first shared-kind (`TRIFORCE_PIECE`) `SendItem` appends exactly one
entry to `base_queue` and unicasts `GetItem` to exactly the connected clients
whose assigned world differs from the sender's world — the finder and
unassigned clients receive nothing — and replaying the identical `SendItem`
changes nothing and produces no messages. -/
theorem C1_shared_item_broadcast (st : Room) (a : SocketId) (pa : Player)
    (key tw tw' : Nat) (hnd : st.keys.Nodup)
    (hga : st.getClient a = some (some pa))
    (hfresh : st.base_queue.any (fun it => it.source == pa.world && it.key == key) = false) :
    ∃ st1 log1,
      queue_item (fun _ => false) st a key TRIFORCE_PIECE tw = some (true, st1, log1) ∧
      st1.base_queue = st.base_queue ++ [Item.mk pa.world key TRIFORCE_PIECE] ∧
      st1.clients = st.clients ∧
      (∀ c popt, st.getClient c = some popt →
        log1.count (c, ServerMessage.GetItem TRIFORCE_PIECE) =
          match popt with
          | some p => if p.world ≠ pa.world then 1 else 0
          | none => 0) ∧
      (∀ c m, (c, m) ∈ log1 → m = ServerMessage.GetItem TRIFORCE_PIECE) ∧
      queue_item (fun _ => false) st1 a key TRIFORCE_PIECE tw' = some (true, st1, []) := by
  set item : Item := Item.mk pa.world key TRIFORCE_PIECE with hitem
  set st1 : Room := Room.mk st.password st.clients (st.base_queue ++ [item])
    (st.player_queues.map (fun p => (p.1, p.2 ++ [item]))) with hst1
  set f : SocketId × Option Player → Option SocketId := fun p =>
    match p.2 with
    | some pl => if pl.world != pa.world then some p.1 else none
    | none => none with hfdef
  set pc : List SocketId := st.clients.filterMap f with hpc
  have hf_shape : ∀ e, f e = none ∨ f e = some e.1 := by
    intro e
    rcases e with ⟨c, popt⟩
    cases popt with
    | none => left; rfl
    | some p =>
      by_cases hpw : p.world = pa.world
      · left; simp [hfdef, hpw]
      · right; simp [hfdef, hpw]
  have hsub : pc.Sublist st.keys := filterMap_key_sublist f hf_shape st.clients
  have hpcnd : pc.Nodup := hsub.nodup hnd
  have hpc_sub : ∀ t ∈ pc, t ∈ st.keys := fun t ht => hsub.mem ht
  have hwe : writeEach (fun _ => false) st1 pc (ServerMessage.GetItem TRIFORCE_PIECE) =
      (st1, pc.map (fun t => (t, ServerMessage.GetItem TRIFORCE_PIECE))) := by
    refine writeEach_noFail _ _ _ _ ?_
    intro t ht
    refine ⟨?_, rfl⟩
    have : t ∈ st1.keys := hpc_sub t ht
    exact (mem_keys_iff_getClient st1 t).mp this
  have hmain : queue_item (fun _ => false) st a key TRIFORCE_PIECE tw =
      some (true, st1, pc.map (fun t => (t, ServerMessage.GetItem TRIFORCE_PIECE))) := by
    unfold queue_item
    simp only [hga]
    rw [if_pos (show (TRIFORCE_PIECE == TRIFORCE_PIECE) = true by simp)]
    rw [if_pos (show (!st.base_queue.any
      (fun it => it.source == pa.world && it.key == key)) = true by rw [hfresh]; rfl)]
    rw [hwe]
  have hcount : ∀ c popt, st.getClient c = some popt →
      (pc.map (fun t => (t, ServerMessage.GetItem TRIFORCE_PIECE))).count
          (c, ServerMessage.GetItem TRIFORCE_PIECE) =
        match popt with
        | some p => if p.world ≠ pa.world then 1 else 0
        | none => 0 := by
    intro c popt hgc
    rw [count_map_pair_eq]
    have hmem := getClient_some_mem st c popt hgc
    cases popt with
    | none =>
      show List.count c pc = 0
      rw [List.count_eq_zero]
      intro hcm
      obtain ⟨e, he, hfe⟩ := List.mem_filterMap.mp hcm
      rcases e with ⟨e1, e2⟩
      cases e2 with
      | none => simp [hfdef] at hfe
      | some q =>
        by_cases hq : q.world = pa.world
        · simp [hfdef, hq] at hfe
        · have he1 : e1 = c := by
            have h' := hfe
            simp only [hfdef] at h'
            rw [if_pos (by simp [hq])] at h'
            exact Option.some_injective _ h'
          subst he1
          have hgq := mem_getClient st e1 (some q) hnd he
          rw [hgc] at hgq
          simp at hgq
    | some p =>
      show List.count c pc = if p.world ≠ pa.world then 1 else 0
      by_cases hpw : p.world = pa.world
      · rw [if_neg (by simp [hpw])]
        rw [List.count_eq_zero]
        intro hcm
        obtain ⟨e, he, hfe⟩ := List.mem_filterMap.mp hcm
        rcases e with ⟨e1, e2⟩
        cases e2 with
        | none => simp [hfdef] at hfe
        | some q =>
          by_cases hq : q.world = pa.world
          · simp [hfdef, hq] at hfe
          · have he1 : e1 = c := by
              have h' := hfe
              simp only [hfdef] at h'
              rw [if_pos (by simp [hq])] at h'
              exact Option.some_injective _ h'
            subst he1
            have hgq := mem_getClient st e1 (some q) hnd he
            rw [hgc] at hgq
            have hpq : p = q := by
              injection hgq with h1
              injection h1
            exact hq (hpq ▸ hpw)
      · rw [if_pos (by simp [hpw])]
        refine List.count_eq_one_of_mem hpcnd ?_
        refine List.mem_filterMap.mpr ⟨(c, some p), hmem, ?_⟩
        simp [hfdef, hpw]
  refine ⟨st1, pc.map (fun t => (t, ServerMessage.GetItem TRIFORCE_PIECE)),
    hmain, rfl, rfl, hcount, ?_, ?_⟩
  · intro c m hcm
    obtain ⟨t, _, ht⟩ := List.mem_map.mp hcm
    injection ht with h1 h2
    exact h2.symm
  · unfold queue_item
    have hga1 : st1.getClient a = some (some pa) := hga
    simp only [hga1]
    rw [if_pos (show (TRIFORCE_PIECE == TRIFORCE_PIECE) = true by simp)]
    have hany : st1.base_queue.any (fun it => it.source == pa.world && it.key == key) = true := by
      refine List.any_eq_true.mpr ⟨item, ?_, by simp [hitem]⟩
      simp [hst1]
    rw [if_neg (by rw [hany]; simp)]

/-- Witness for C1 at a three-client room (finder world 1, receiver world 2,
one unassigned client). -/
theorem C1_witness :
    ((Room.mk "" [(10, some (Player.new 1)), (11, some (Player.new 2)), (12, none)] [] []).keys.Nodup ∧
     (Room.mk "" [(10, some (Player.new 1)), (11, some (Player.new 2)), (12, none)] [] []).getClient 10 =
       some (some (Player.new 1)) ∧
     (Room.mk "" [(10, some (Player.new 1)), (11, some (Player.new 2)), (12, none)] [] []).base_queue.any
       (fun it => it.source == (Player.new 1).world && it.key == 5) = false) ∧
    (∃ st1 log1,
      queue_item (fun _ => false)
        (Room.mk "" [(10, some (Player.new 1)), (11, some (Player.new 2)), (12, none)] [] [])
        10 5 TRIFORCE_PIECE 2 = some (true, st1, log1) ∧
      st1.base_queue =
        (Room.mk "" [(10, some (Player.new 1)), (11, some (Player.new 2)), (12, none)] [] []).base_queue ++
          [Item.mk (Player.new 1).world 5 TRIFORCE_PIECE] ∧
      st1.clients =
        (Room.mk "" [(10, some (Player.new 1)), (11, some (Player.new 2)), (12, none)] [] []).clients ∧
      (∀ c popt,
        (Room.mk "" [(10, some (Player.new 1)), (11, some (Player.new 2)), (12, none)] [] []).getClient c =
          some popt →
        log1.count (c, ServerMessage.GetItem TRIFORCE_PIECE) =
          match popt with
          | some p => if p.world ≠ (Player.new 1).world then 1 else 0
          | none => 0) ∧
      (∀ c m, (c, m) ∈ log1 → m = ServerMessage.GetItem TRIFORCE_PIECE) ∧
      queue_item (fun _ => false) st1 10 5 TRIFORCE_PIECE 2 = some (true, st1, [])) :=
  ⟨⟨by decide, by decide, by decide⟩,
   C1_shared_item_broadcast
     (Room.mk "" [(10, some (Player.new 1)), (11, some (Player.new 2)), (12, none)] [] [])
     10 (Player.new 1) 5 2 2 (by decide) (by decide) (by decide)⟩

/-- Full result of `Room::queue_item` for a fresh shared-kind item when no
write fails: `base_queue` and every existing per-world queue get the item
appended, and every connected client assigned a world other than the sender's
receives `GetItem`. -/
theorem queue_item_shared_spec (st : Room) (a : SocketId) (pa : Player)
    (key tw : Nat)
    (hga : st.getClient a = some (some pa))
    (hfresh : st.base_queue.any (fun it => it.source == pa.world && it.key == key) = false) :
    queue_item (fun _ => false) st a key TRIFORCE_PIECE tw =
      some (true,
        Room.mk st.password st.clients
          (st.base_queue ++ [Item.mk pa.world key TRIFORCE_PIECE])
          (st.player_queues.map (fun p => (p.1, p.2 ++ [Item.mk pa.world key TRIFORCE_PIECE]))),
        (st.clients.filterMap (fun p =>
          match p.2 with
          | some pl => if pl.world != pa.world then some p.1 else none
          | none => none)).map (fun t => (t, ServerMessage.GetItem TRIFORCE_PIECE))) := by
  set item : Item := Item.mk pa.world key TRIFORCE_PIECE with hitem
  set st1 : Room := Room.mk st.password st.clients (st.base_queue ++ [item])
    (st.player_queues.map (fun p => (p.1, p.2 ++ [item]))) with hst1
  set f : SocketId × Option Player → Option SocketId := fun p =>
    match p.2 with
    | some pl => if pl.world != pa.world then some p.1 else none
    | none => none with hfdef
  set pc : List SocketId := st.clients.filterMap f with hpc
  have hf_shape : ∀ e, f e = none ∨ f e = some e.1 := by
    intro e
    rcases e with ⟨c, popt⟩
    cases popt with
    | none => left; rfl
    | some p =>
      by_cases hpw : p.world = pa.world
      · left; simp [hfdef, hpw]
      · right; simp [hfdef, hpw]
  have hsub : pc.Sublist st.keys := filterMap_key_sublist f hf_shape st.clients
  have hwe : writeEach (fun _ => false) st1 pc (ServerMessage.GetItem TRIFORCE_PIECE) =
      (st1, pc.map (fun t => (t, ServerMessage.GetItem TRIFORCE_PIECE))) := by
    refine writeEach_noFail _ _ _ _ ?_
    intro t ht
    exact ⟨(mem_keys_iff_getClient st1 t).mp (hsub.mem ht), rfl⟩
  unfold queue_item
  simp only [hga]
  rw [if_pos (show (TRIFORCE_PIECE == TRIFORCE_PIECE) = true by simp)]
  rw [if_pos (show (!st.base_queue.any
    (fun it => it.source == pa.world && it.key == key)) = true by rw [hfresh]; rfl)]
  rw [hwe]

/-- C5: a world-specific `SendItem` whose target world has no queue yet forks
`player_queues[w]` as the current `base_queue` with the item appended; and a
fresh shared item appended to `base_queue` is also appended to every existing
per-world queue (so forks receive subsequent shared items). -/
theorem C5_fork_and_shared_propagation (st : Room) (a : SocketId) (pa : Player)
    (hga : st.getClient a = some (some pa)) :
    (∀ key kind w, kind ≠ TRIFORCE_PIECE → st.lookupQueue w = none →
      ∃ st1 log1,
        queue_item (fun _ => false) st a key kind w = some (true, st1, log1) ∧
        st1.lookupQueue w = some (st.base_queue ++ [Item.mk pa.world key kind]) ∧
        st1.base_queue = st.base_queue) ∧
    (∀ key w q tw, st.lookupQueue w = some q →
      st.base_queue.any (fun it => it.source == pa.world && it.key == key) = false →
      ∃ st1 log1,
        queue_item (fun _ => false) st a key TRIFORCE_PIECE tw = some (true, st1, log1) ∧
        st1.base_queue = st.base_queue ++ [Item.mk pa.world key TRIFORCE_PIECE] ∧
        st1.lookupQueue w = some (q ++ [Item.mk pa.world key TRIFORCE_PIECE])) := by
  constructor
  · intro key kind w hkind hlook
    set item : Item := Item.mk pa.world key kind with hitem
    set st1 : Room := st.pushWorldQueue w item with hst1
    have hlooknew := pushWorldQueue_lookup_new st w item hlook
    have hbase := pushWorldQueue_base st w item
    have hstep : queue_item (fun _ => false) st a key kind w =
        (match st1.clients.find? (fun p =>
            match p.2 with
            | some pl => pl.world == w
            | none => false) with
          | some tc =>
            match write (fun _ => false) st1 tc.1 (ServerMessage.GetItem kind) with
            | (st2, log2) => some (true, st2, log2)
          | none => some (true, st1, ([] : Log))) := by
      unfold queue_item
      simp only [hga]
      rw [if_neg (show ¬ (kind == TRIFORCE_PIECE) = true by simp [hkind])]
      rw [if_pos (show (!(match st.lookupQueue w with
        | some q => q.any (fun it => it.source == pa.world && it.key == key)
        | none => false)) = true by rw [hlook]; rfl)]
    cases hfind : st1.clients.find? (fun p =>
        match p.2 with
        | some pl => pl.world == w
        | none => false) with
    | none =>
      refine ⟨st1, [], ?_, hlooknew, hbase⟩
      rw [hstep, hfind]
    | some tc =>
      have htc : tc ∈ st1.clients := List.mem_of_find?_eq_some hfind
      have htck : tc.1 ∈ st1.keys := List.mem_map_of_mem Prod.fst htc
      obtain ⟨pl, hpl⟩ : ∃ pl, st1.getClient tc.1 = some pl := by
        cases hg : st1.getClient tc.1 with
        | none => exact absurd htck (getClient_none_not_mem st1 tc.1 hg)
        | some pl => exact ⟨pl, rfl⟩
      refine ⟨st1, [(tc.1, ServerMessage.GetItem kind)], ?_, hlooknew, hbase⟩
      rw [hstep, hfind]
      simp only [write_success (fun _ => false) st1 tc.1 (ServerMessage.GetItem kind) pl hpl rfl]
  · intro key w q tw hlook hfresh
    refine ⟨_, _, queue_item_shared_spec st a pa key tw hga hfresh, rfl, ?_⟩
    rw [lookupQueue_shared_push st (Item.mk pa.world key TRIFORCE_PIECE) w, hlook]
    rfl

/-- Witness for C5 at a room with one assigned client and an existing fork for
world 2. -/
theorem C5_witness :
    (Room.mk "" [(0, some (Player.new 1))] [] [(2, [])]).getClient 0 =
      some (some (Player.new 1)) ∧
    ((∀ key kind w, kind ≠ TRIFORCE_PIECE →
      (Room.mk "" [(0, some (Player.new 1))] [] [(2, [])]).lookupQueue w = none →
      ∃ st1 log1,
        queue_item (fun _ => false) (Room.mk "" [(0, some (Player.new 1))] [] [(2, [])])
          0 key kind w = some (true, st1, log1) ∧
        st1.lookupQueue w =
          some ((Room.mk "" [(0, some (Player.new 1))] [] [(2, [])]).base_queue ++
            [Item.mk (Player.new 1).world key kind]) ∧
        st1.base_queue = (Room.mk "" [(0, some (Player.new 1))] [] [(2, [])]).base_queue) ∧
    (∀ key w q tw,
      (Room.mk "" [(0, some (Player.new 1))] [] [(2, [])]).lookupQueue w = some q →
      (Room.mk "" [(0, some (Player.new 1))] [] [(2, [])]).base_queue.any
        (fun it => it.source == (Player.new 1).world && it.key == key) = false →
      ∃ st1 log1,
        queue_item (fun _ => false) (Room.mk "" [(0, some (Player.new 1))] [] [(2, [])])
          0 key TRIFORCE_PIECE tw = some (true, st1, log1) ∧
        st1.base_queue =
          (Room.mk "" [(0, some (Player.new 1))] [] [(2, [])]).base_queue ++
            [Item.mk (Player.new 1).world key TRIFORCE_PIECE] ∧
        st1.lookupQueue w = some (q ++ [Item.mk (Player.new 1).world key TRIFORCE_PIECE]))) :=
  ⟨by decide,
   C5_fork_and_shared_propagation (Room.mk "" [(0, some (Player.new 1))] [] [(2, [])])
     0 (Player.new 1) (by decide)⟩

theorem getClient_pushWorldQueue (st : Room) (w : World) (item : Item)
    (c : SocketId) : (st.pushWorldQueue w item).getClient c = st.getClient c := by
  rw [Room.pushWorldQueue]
  split <;> rfl

theorem keys_pushWorldQueue (st : Room) (w : World) (item : Item) :
    (st.pushWorldQueue w item).keys = st.keys := by
  rw [Room.keys, pushWorldQueue_clients]
  rfl

/-- A fresh world-specific item targeting a world no connected client holds:
the item is queued (forking if needed) and nobody is sent anything. -/
theorem queue_item_world_fresh_noholder (fails : SocketId → Bool) (st : Room)
    (a : SocketId) (pa : Player) (key kind w : Nat)
    (hga : st.getClient a = some (some pa))
    (hkind : kind ≠ TRIFORCE_PIECE)
    (hlook : st.lookupQueue w = none)
    (hfind : st.clients.find? (fun p =>
      match p.2 with
      | some pl => pl.world == w
      | none => false) = none) :
    queue_item fails st a key kind w =
      some (true, st.pushWorldQueue w (Item.mk pa.world key kind), []) := by
  unfold queue_item
  simp only [hga]
  rw [if_neg (show ¬ (kind == TRIFORCE_PIECE) = true by simp [hkind])]
  rw [if_pos (show (!(match st.lookupQueue w with
    | some q => q.any (fun it => it.source == pa.world && it.key == key)
    | none => false)) = true by rw [hlook]; rfl)]
  have hfind1 : (st.pushWorldQueue w (Item.mk pa.world key kind)).clients.find?
      (fun p =>
        match p.2 with
        | some pl => pl.world == w
        | none => false) = none := by
    rw [pushWorldQueue_clients]
    exact hfind
  rw [hfind1]

/-- C4: a world-specific `SendItem` aimed at a world no connected client holds
delivers nothing live and queues the item; when a client later claims that
world, it receives an `ItemQueue` whose sequence contains the item's kind
exactly once (and everyone is told `PlayerId`). -/
theorem C4_deferred_delivery (st : Room) (a b : SocketId) (pa : Player)
    (key kind w : Nat)
    (hnd : st.keys.Nodup)
    (hga : st.getClient a = some (some pa))
    (hkind : kind ≠ TRIFORCE_PIECE)
    (hfork : st.lookupQueue w = none)
    (hheld : ∀ e ∈ st.clients, e.2.map Player.world ≠ some w)
    (hb : st.getClient b = some none)
    (hbase : ∀ it ∈ st.base_queue, it.kind = TRIFORCE_PIECE) :
    ∃ st1,
      queue_item (fun _ => false) st a key kind w = some (true, st1, []) ∧
      st1.lookupQueue w = some (st.base_queue ++ [Item.mk pa.world key kind]) ∧
      st1.clients = st.clients ∧
      ∃ ks,
        load_player (fun _ => false) st1 b w =
          some (true, st1.setPlayer b (some (Player.new w)),
            (st1.setPlayer b (some (Player.new w))).clients.map
              (fun e => (e.1, ServerMessage.PlayerId w)) ++
              [(b, ServerMessage.ItemQueue ks)]) ∧
        ks.count kind = 1 := by
  set item : Item := Item.mk pa.world key kind with hitem
  set st1 : Room := st.pushWorldQueue w item with hst1
  have hfind : st.clients.find? (fun p =>
      match p.2 with
      | some pl => pl.world == w
      | none => false) = none := by
    rw [List.find?_eq_none]
    intro e he
    have := hheld e he
    cases he2 : e.2 with
    | none => simp
    | some q =>
      rw [he2] at this
      simp only [Option.map_some'] at this
      have hq : q.world ≠ w := fun hq => this (by rw [hq])
      simp [hq]
  have hq1 : queue_item (fun _ => false) st a key kind w = some (true, st1, []) :=
    queue_item_world_fresh_noholder (fun _ => false) st a pa key kind w hga hkind hfork hfind
  have hlooknew : st1.lookupQueue w = some (st.base_queue ++ [item]) :=
    pushWorldQueue_lookup_new st w item hfork
  have hcl : st1.clients = st.clients := pushWorldQueue_clients st w item
  have hkeys1 : st1.keys = st.keys := keys_pushWorldQueue st w item
  refine ⟨st1, hq1, hlooknew, hcl, ?_⟩
  -- phase 2: claiming the world delivers the queued item
  set st2 : Room := st1.setPlayer b (some (Player.new w)) with hst2
  set ks : List Nat := (st.base_queue ++ [item]).map Item.kind with hks
  have hkeys2 : st2.keys = st.keys := by
    rw [hst2, keys_setPlayer, hkeys1]
  have hnd2 : st2.keys.Nodup := by rw [hkeys2]; exact hnd
  have hbmem : b ∈ st1.keys := by
    rw [hkeys1]
    exact List.mem_map_of_mem Prod.fst (getClient_some_mem st b none hb)
  have hgb2 : st2.getClient b = some (some (Player.new w)) :=
    getClient_setPlayer_self st1 b (some (Player.new w)) hbmem
  have hlq2 : st2.lookupQueue w = some (st.base_queue ++ [item]) := hlooknew
  have hcount : ks.count kind = 1 := by
    rw [hks, List.map_append, List.count_append]
    have h0 : (st.base_queue.map Item.kind).count kind = 0 := by
      rw [List.count_eq_zero]
      intro hmem
      obtain ⟨it, hit, hk⟩ := List.mem_map.mp hmem
      exact hkind (by rw [← hk, hbase it hit])
    rw [h0]
    simp [hitem]
  refine ⟨ks, ?_, hcount⟩
  unfold load_player
  rw [if_neg ?hany]
  case hany =>
    intro hany
    obtain ⟨e, he, hpred⟩ := List.any_eq_true.mp hany
    rw [hcl] at he
    rw [Bool.and_eq_true] at hpred
    have := hheld e he
    cases he2 : e.2 with
    | none => rw [he2] at hpred; simp at hpred
    | some q =>
      rw [he2] at hpred this
      have hq : q.world = w := by simpa using hpred.1
      exact this (by rw [Option.map_some', hq])
  have hgb1 : st1.getClient b = some none := by
    rw [getClient_pushWorldQueue]
    exact hb
  simp only [hgb1]
  unfold loadFinish
  rw [write_all_noFail (fun _ => false) (ServerMessage.PlayerId w) st2 hnd2
    (fun c _ => rfl)]
  simp only [hlq2]
  have hne : (((some (st.base_queue ++ [item])).getD st2.base_queue).map Item.kind).isEmpty ≠ true := by
    simp [hitem]
  rw [if_neg hne]
  rw [write_success (fun _ => false) st2 b _ (some (Player.new w)) hgb2 rfl]
  rfl

/-- Witness for C4: the spec scenario `SendItem{key=7, kind=99, target_world=3}`
with world 3 unclaimed, then a claim of world 3. -/
theorem C4_witness :
    ((Room.mk "" [(0, some (Player.new 1)), (1, none)] [] []).keys.Nodup ∧
     (Room.mk "" [(0, some (Player.new 1)), (1, none)] [] []).getClient 0 =
       some (some (Player.new 1)) ∧
     (99 : Nat) ≠ TRIFORCE_PIECE ∧
     (Room.mk "" [(0, some (Player.new 1)), (1, none)] [] []).lookupQueue 3 = none ∧
     (∀ e ∈ (Room.mk "" [(0, some (Player.new 1)), (1, none)] [] []).clients,
       e.2.map Player.world ≠ some 3) ∧
     (Room.mk "" [(0, some (Player.new 1)), (1, none)] [] []).getClient 1 = some none ∧
     (∀ it ∈ (Room.mk "" [(0, some (Player.new 1)), (1, none)] [] []).base_queue,
       it.kind = TRIFORCE_PIECE)) ∧
    (∃ st1,
      queue_item (fun _ => false) (Room.mk "" [(0, some (Player.new 1)), (1, none)] [] [])
        0 7 99 3 = some (true, st1, []) ∧
      st1.lookupQueue 3 =
        some ((Room.mk "" [(0, some (Player.new 1)), (1, none)] [] []).base_queue ++
          [Item.mk (Player.new 1).world 7 99]) ∧
      st1.clients = (Room.mk "" [(0, some (Player.new 1)), (1, none)] [] []).clients ∧
      ∃ ks,
        load_player (fun _ => false) st1 1 3 =
          some (true, st1.setPlayer 1 (some (Player.new 3)),
            (st1.setPlayer 1 (some (Player.new 3))).clients.map
              (fun e => (e.1, ServerMessage.PlayerId 3)) ++
              [(1, ServerMessage.ItemQueue ks)]) ∧
        ks.count 99 = 1) :=
  ⟨⟨by decide, by decide, by decide, by decide, by decide, by decide, by decide⟩,
   C4_deferred_delivery (Room.mk "" [(0, some (Player.new 1)), (1, none)] [] [])
     0 1 (Player.new 1) 7 99 3
     (by decide) (by decide) (by decide) (by decide) (by decide) (by decide) (by decide)⟩

theorem not_mem_keys_erase (st : Room) (x : SocketId) :
    x ∉ (st.eraseClient x).keys := by
  rw [keys_eraseClient]
  intro h
  have := List.mem_filter.mp h
  simp at this

theorem count_entry_map_eq (l : List (SocketId × Option Player)) (c : SocketId)
    (msg : ServerMessage) :
    (l.map (fun e => (e.1, msg))).count (c, msg) = (l.map Prod.fst).count c := by
  have : l.map (fun e => (e.1, msg)) = (l.map Prod.fst).map (fun t => (t, msg)) := by
    rw [List.map_map]
    rfl
  rw [this, count_map_pair_eq]

/-- C8: removing a present client broadcasts exactly one `PlayerDisconnected(w)`
(when it held world `w`) or exactly one `UnregisteredClientDisconnected` (when
unassigned) to every remaining client, nothing to the departing client, and
removing an absent id does nothing. -/
theorem C8_disconnect_broadcast (st : Room) (x : SocketId) (hnd : st.keys.Nodup) :
    (∀ pl : Player, st.getClient x = some (some pl) →
      remove_client (fun _ => false) st x =
        (st.eraseClient x, (st.eraseClient x).clients.map
          (fun e => (e.1, ServerMessage.PlayerDisconnected pl.world))) ∧
      (∀ c ∈ (st.eraseClient x).keys,
        ((st.eraseClient x).clients.map
          (fun e => (e.1, ServerMessage.PlayerDisconnected pl.world))).count
            (c, ServerMessage.PlayerDisconnected pl.world) = 1) ∧
      (∀ m, (x, m) ∉ (st.eraseClient x).clients.map
        (fun e => (e.1, ServerMessage.PlayerDisconnected pl.world)))) ∧
    (st.getClient x = some none →
      remove_client (fun _ => false) st x =
        (st.eraseClient x, (st.eraseClient x).clients.map
          (fun e => (e.1, ServerMessage.UnregisteredClientDisconnected))) ∧
      (∀ c ∈ (st.eraseClient x).keys,
        ((st.eraseClient x).clients.map
          (fun e => (e.1, ServerMessage.UnregisteredClientDisconnected))).count
            (c, ServerMessage.UnregisteredClientDisconnected) = 1) ∧
      (∀ m, (x, m) ∉ (st.eraseClient x).clients.map
        (fun e => (e.1, ServerMessage.UnregisteredClientDisconnected)))) ∧
    (st.getClient x = none → remove_client (fun _ => false) st x = (st, [])) := by
  have hndE : (st.eraseClient x).keys.Nodup := keys_eraseClient_nodup st x hnd
  have hnotmem : ∀ (m : ServerMessage) (msg : ServerMessage),
      (x, m) ∉ (st.eraseClient x).clients.map (fun e => (e.1, msg)) := by
    intro m msg hmem
    obtain ⟨e, he, heq⟩ := List.mem_map.mp hmem
    have hex : e.1 = x := by injection heq
    have hmm : e.1 ∈ (st.eraseClient x).keys := List.mem_map_of_mem Prod.fst he
    rw [hex] at hmm
    exact not_mem_keys_erase st x hmm
  have hcount : ∀ msg : ServerMessage, ∀ c ∈ (st.eraseClient x).keys,
      ((st.eraseClient x).clients.map (fun e => (e.1, msg))).count (c, msg) = 1 := by
    intro msg c hc
    rw [count_entry_map_eq]
    exact List.count_eq_one_of_mem hndE hc
  refine ⟨?_, ?_, ?_⟩
  · intro pl hg
    refine ⟨?_, hcount _, fun m => hnotmem m _⟩
    exact remove_client_present (fun _ => false) st x (some pl) hnd (fun _ _ => rfl) hg
  · intro hg
    refine ⟨?_, hcount _, fun m => hnotmem m _⟩
    exact remove_client_present (fun _ => false) st x none hnd (fun _ _ => rfl) hg
  · intro hg
    exact remove_client_absent (fun _ => false) st x hg

/-- Witness for C8 at a three-client room. -/
theorem C8_witness :
    (Room.mk "" [(0, some (Player.new 1)), (1, none), (2, some (Player.new 2))] [] []).keys.Nodup ∧
    ((∀ pl : Player,
      (Room.mk "" [(0, some (Player.new 1)), (1, none), (2, some (Player.new 2))] [] []).getClient 0 =
        some (some pl) →
      remove_client (fun _ => false)
          (Room.mk "" [(0, some (Player.new 1)), (1, none), (2, some (Player.new 2))] [] []) 0 =
        ((Room.mk "" [(0, some (Player.new 1)), (1, none), (2, some (Player.new 2))] [] []).eraseClient 0,
         ((Room.mk "" [(0, some (Player.new 1)), (1, none), (2, some (Player.new 2))] [] []).eraseClient 0).clients.map
           (fun e => (e.1, ServerMessage.PlayerDisconnected pl.world))) ∧
      (∀ c ∈ ((Room.mk "" [(0, some (Player.new 1)), (1, none), (2, some (Player.new 2))] [] []).eraseClient 0).keys,
        (((Room.mk "" [(0, some (Player.new 1)), (1, none), (2, some (Player.new 2))] [] []).eraseClient 0).clients.map
          (fun e => (e.1, ServerMessage.PlayerDisconnected pl.world))).count
            (c, ServerMessage.PlayerDisconnected pl.world) = 1) ∧
      (∀ m, (0, m) ∉ ((Room.mk "" [(0, some (Player.new 1)), (1, none), (2, some (Player.new 2))] [] []).eraseClient 0).clients.map
        (fun e => (e.1, ServerMessage.PlayerDisconnected pl.world)))) ∧
    ((Room.mk "" [(0, some (Player.new 1)), (1, none), (2, some (Player.new 2))] [] []).getClient 0 = some none →
      remove_client (fun _ => false)
          (Room.mk "" [(0, some (Player.new 1)), (1, none), (2, some (Player.new 2))] [] []) 0 =
        ((Room.mk "" [(0, some (Player.new 1)), (1, none), (2, some (Player.new 2))] [] []).eraseClient 0,
         ((Room.mk "" [(0, some (Player.new 1)), (1, none), (2, some (Player.new 2))] [] []).eraseClient 0).clients.map
           (fun e => (e.1, ServerMessage.UnregisteredClientDisconnected))) ∧
      (∀ c ∈ ((Room.mk "" [(0, some (Player.new 1)), (1, none), (2, some (Player.new 2))] [] []).eraseClient 0).keys,
        (((Room.mk "" [(0, some (Player.new 1)), (1, none), (2, some (Player.new 2))] [] []).eraseClient 0).clients.map
          (fun e => (e.1, ServerMessage.UnregisteredClientDisconnected))).count
            (c, ServerMessage.UnregisteredClientDisconnected) = 1) ∧
      (∀ m, (0, m) ∉ ((Room.mk "" [(0, some (Player.new 1)), (1, none), (2, some (Player.new 2))] [] []).eraseClient 0).clients.map
        (fun e => (e.1, ServerMessage.UnregisteredClientDisconnected)))) ∧
    ((Room.mk "" [(0, some (Player.new 1)), (1, none), (2, some (Player.new 2))] [] []).getClient 0 = none →
      remove_client (fun _ => false)
          (Room.mk "" [(0, some (Player.new 1)), (1, none), (2, some (Player.new 2))] [] []) 0 =
        (Room.mk "" [(0, some (Player.new 1)), (1, none), (2, some (Player.new 2))] [] [], []))) :=
  ⟨by decide,
   C8_disconnect_broadcast
     (Room.mk "" [(0, some (Player.new 1)), (1, none), (2, some (Player.new 2))] [] [])
     0 (by decide)⟩

theorem count_entry_map_ne (l : List (SocketId × Option Player)) (c : SocketId)
    (msg m : ServerMessage) (h : m ≠ msg) :
    (l.map (fun e => (e.1, msg))).count (c, m) = 0 := by
  have : l.map (fun e => (e.1, msg)) = (l.map Prod.fst).map (fun t => (t, msg)) := by
    rw [List.map_map]
    rfl
  rw [this, count_map_pair_ne _ _ _ _ h]

theorem find?_eq_head?_filter {α : Type} (p : α → Bool) :
    ∀ l : List α, l.find? p = (l.filter p).head? := by
  intro l
  induction l with
  | nil => rfl
  | cons a l ih =>
    by_cases hp : p a
    · rw [List.find?_cons_of_pos _ hp, List.filter_cons_of_pos hp]
      rfl
    · rw [List.find?_cons_of_neg _ (by simpa using hp),
        List.filter_cons_of_neg (by simpa using hp)]
      exact ih

theorem pendingEntries_erase (st : Room) (x : SocketId) (notified : List SocketId) :
    (st.eraseClient x).pendingEntries (x :: notified) =
      (st.pendingEntries notified).filter (fun p => decide (p.1 ≠ x)) := by
  simp only [Room.pendingEntries, pendingList, Room.eraseClient, List.filter_filter]
  refine List.filter_congr ?_
  intro a _
  by_cases h1 : a.1 = x <;> by_cases h2 : a.1 ∈ notified <;>
    simp [h1, h2, List.mem_cons]

/-- The `write_all` loop when exactly one client's writes fail: all clients
before the failing one receive the broadcast, the failing client is removed
and its disconnect message is broadcast to all remaining clients, then the
loop finishes delivering the original broadcast to the clients after it. -/
theorem writeAllAux_oneFail (fails : SocketId → Bool) (msg : ServerMessage)
    (st : Room) (x : SocketId) (px : Option Player)
    (B : List (SocketId × Option Player)) (hnd : st.keys.Nodup)
    (hfx : fails x = true) (hfo : ∀ c ∈ st.keys, c ≠ x → fails c = false) :
    ∀ (A : List (SocketId × Option Player)) (notified : List SocketId),
    st.pendingEntries notified = A ++ (x, px) :: B →
    (writeAllAux fails msg st notified).val =
      (st.eraseClient x,
       A.map (fun e => (e.1, msg))
         ++ (st.eraseClient x).clients.map (fun e => (e.1, disconnectMsg px))
         ++ B.map (fun e => (e.1, msg))) := by
  intro A
  induction A with
  | nil =>
    intro notified hsplit
    have hpend : st.pendingEntries notified = (x, px) :: B := by simpa using hsplit
    have hsub : ((x, px) :: B).Sublist st.clients := by
      rw [← hpend]
      exact List.filter_sublist _
    have hknd : (x :: B.map Prod.fst).Nodup := by
      have := (hsub.map Prod.fst).nodup hnd
      simpa using this
    have hxB : x ∉ B.map Prod.fst := (List.nodup_cons.mp hknd).1
    have hfp : st.findPending notified = some (x, px) := by
      rw [Room.findPending, find?_eq_head?_filter]
      show (st.pendingEntries notified).head? = _
      rw [hpend]
      rfl
    have hxmem : (x, px) ∈ st.clients := hsub.mem (List.mem_cons_self _ _)
    have hgx : st.getClient x = some px := mem_getClient st x px hnd hxmem
    have hfe : ∀ c ∈ (st.eraseClient x).keys, fails c = false := by
      intro c hc
      rw [keys_eraseClient] at hc
      have := List.mem_filter.mp hc
      exact hfo c this.1 (by simpa using this.2)
    have hndE : (st.eraseClient x).keys.Nodup := keys_eraseClient_nodup st x hnd
    have hrm : (removeClientAux fails st x).val =
        (st.eraseClient x,
         (st.eraseClient x).clients.map (fun e => (e.1, disconnectMsg px))) := by
      rw [removeClientAux_some fails st x px hgx]
      rw [writeAllAux_noFail fails (disconnectMsg px) (st.eraseClient x) hndE hfe []]
      rw [pendingEntries_nil]
    rw [writeAllAux_fail fails msg st notified x px hfp hfx]
    rw [hrm]
    rw [writeAllAux_noFail fails msg (st.eraseClient x) hndE hfe (x :: notified)]
    have hpendE : (st.eraseClient x).pendingEntries (x :: notified) = B := by
      rw [pendingEntries_erase, hpend]
      rw [List.filter_cons_of_neg (by simp)]
      refine List.filter_eq_self.mpr ?_
      intro b hb
      have : b.1 ≠ x := by
        intro hbx
        exact hxB (hbx ▸ List.mem_map_of_mem Prod.fst hb)
      simpa using this
    rw [hpendE]
    simp
  | cons a A' ih =>
    intro notified hsplit
    rcases a with ⟨a1, apl⟩
    rw [List.cons_append] at hsplit
    have hsub : ((a1, apl) :: (A' ++ (x, px) :: B)).Sublist st.clients := by
      rw [← hsplit]
      exact List.filter_sublist _
    have hknd : ((a1, apl) :: (A' ++ (x, px) :: B)).map Prod.fst |>.Nodup :=
      (hsub.map Prod.fst).nodup hnd
    have ha1rest : a1 ∉ (A' ++ (x, px) :: B).map Prod.fst := by
      simp only [List.map_cons, List.nodup_cons] at hknd
      exact hknd.1
    have ha1x : a1 ≠ x := by
      intro h
      refine ha1rest ?_
      rw [List.map_append]
      refine List.mem_append.mpr (Or.inr ?_)
      simp [h]
    have ha1mem : (a1, apl) ∈ st.clients := hsub.mem (List.mem_cons_self _ _)
    have ha1k : a1 ∈ st.keys := List.mem_map_of_mem Prod.fst ha1mem
    have hfa1 : fails a1 = false := hfo a1 ha1k ha1x
    have hfp : st.findPending notified = some (a1, apl) := by
      rw [Room.findPending, find?_eq_head?_filter]
      show (st.pendingEntries notified).head? = _
      rw [hsplit]
      rfl
    rw [writeAllAux_success fails msg st notified a1 apl hfp hfa1]
    have hpend' : st.pendingEntries (a1 :: notified) = A' ++ (x, px) :: B := by
      rw [pendingEntries_cons_eq, hsplit]
      rw [List.filter_cons_of_neg (by simp)]
      refine List.filter_eq_self.mpr ?_
      intro b hb
      have : b.1 ≠ a1 := by
        intro hba
        exact ha1rest (hba ▸ List.mem_map_of_mem Prod.fst hb)
      simpa using this
    rw [ih (a1 :: notified) hpend']
    simp

/-- C6: within one `write_all` broadcast where exactly one client's writes
fail, no client receives the broadcast message more than once; only the
failing client is removed from the registry, and every other connected client
still receives the message exactly once (the failing client receives it
zero times). -/
theorem C6_broadcast_failure_isolation (st : Room) (fails : SocketId → Bool)
    (x : SocketId) (px : Option Player) (msg : ServerMessage)
    (hnd : st.keys.Nodup) (hx : st.getClient x = some px)
    (hfx : fails x = true) (hfo : ∀ c ∈ st.keys, c ≠ x → fails c = false)
    (hmsg : msg ≠ disconnectMsg px) :
    (write_all fails msg st).1 = st.eraseClient x ∧
    (∀ c ∈ st.keys, c ≠ x → (write_all fails msg st).2.count (c, msg) = 1) ∧
    (write_all fails msg st).2.count (x, msg) = 0 ∧
    (∀ c, (write_all fails msg st).2.count (c, msg) ≤ 1) := by
  obtain ⟨A, B, hsplit⟩ := List.append_of_mem (getClient_some_mem st x px hx)
  have hpend : st.pendingEntries [] = A ++ (x, px) :: B := by
    rw [pendingEntries_nil, hsplit]
  have hwa : write_all fails msg st =
      (st.eraseClient x,
       A.map (fun e => (e.1, msg))
         ++ (st.eraseClient x).clients.map (fun e => (e.1, disconnectMsg px))
         ++ B.map (fun e => (e.1, msg))) := by
    rw [write_all, writeAllAux_oneFail fails msg st x px B hnd hfx hfo A [] hpend]
  have hkeys : st.keys = A.map Prod.fst ++ x :: B.map Prod.fst := by
    rw [Room.keys, hsplit]
    simp
  have hxmem : x ∈ st.keys := by
    rw [hkeys]
    exact List.mem_append.mpr (Or.inr (List.mem_cons_self _ _))
  have hcx : st.keys.count x = 1 := List.count_eq_one_of_mem hnd hxmem
  have hcountkeys : ∀ c, st.keys.count c =
      (A.map Prod.fst).count c + ((B.map Prod.fst).count c +
        if x == c then 1 else 0) := by
    intro c
    rw [hkeys, List.count_append, List.count_cons]
  refine ⟨by rw [hwa], ?_, ?_, ?_⟩
  · intro c hc hcne
    rw [hwa]
    simp only [List.count_append]
    rw [count_entry_map_eq A, count_entry_map_eq B,
      count_entry_map_ne _ _ _ _ hmsg]
    have h1 : st.keys.count c = 1 := List.count_eq_one_of_mem hnd hc
    have h2 := hcountkeys c
    rw [if_neg (by simp [Ne.symm hcne])] at h2
    omega
  · rw [hwa]
    simp only [List.count_append]
    rw [count_entry_map_eq A, count_entry_map_eq B,
      count_entry_map_ne _ _ _ _ hmsg]
    have h2 := hcountkeys x
    rw [if_pos (by simp)] at h2
    omega
  · intro c
    rw [hwa]
    simp only [List.count_append]
    rw [count_entry_map_eq A, count_entry_map_eq B,
      count_entry_map_ne _ _ _ _ hmsg]
    have h1 : st.keys.count c ≤ 1 := List.nodup_iff_count_le_one.mp hnd c
    have h2 := hcountkeys c
    by_cases hcx' : c = x
    · rw [if_pos (by simp [hcx'])] at h2
      omega
    · rw [if_neg (by simp [(Ne.symm hcx' : x ≠ c)])] at h2
      omega

/-- Witness for C6: a three-client room where client 1's writes fail. -/
theorem C6_witness :
    ((Room.mk "" [(0, some (Player.new 1)), (1, some (Player.new 2)), (2, none)] [] []).keys.Nodup ∧
     (Room.mk "" [(0, some (Player.new 1)), (1, some (Player.new 2)), (2, none)] [] []).getClient 1 =
       some (some (Player.new 2)) ∧
     (fun c => c == 1) 1 = true ∧
     (∀ c ∈ (Room.mk "" [(0, some (Player.new 1)), (1, some (Player.new 2)), (2, none)] [] []).keys,
        c ≠ 1 → (fun c => c == 1) c = false) ∧
     ServerMessage.GetItem 7 ≠ disconnectMsg (some (Player.new 2))) ∧
    ((write_all (fun c => c == 1) (ServerMessage.GetItem 7)
        (Room.mk "" [(0, some (Player.new 1)), (1, some (Player.new 2)), (2, none)] [] [])).1 =
      (Room.mk "" [(0, some (Player.new 1)), (1, some (Player.new 2)), (2, none)] [] []).eraseClient 1 ∧
     (∀ c ∈ (Room.mk "" [(0, some (Player.new 1)), (1, some (Player.new 2)), (2, none)] [] []).keys,
        c ≠ 1 →
        (write_all (fun c => c == 1) (ServerMessage.GetItem 7)
          (Room.mk "" [(0, some (Player.new 1)), (1, some (Player.new 2)), (2, none)] [] [])).2.count
            (c, ServerMessage.GetItem 7) = 1) ∧
     (write_all (fun c => c == 1) (ServerMessage.GetItem 7)
        (Room.mk "" [(0, some (Player.new 1)), (1, some (Player.new 2)), (2, none)] [] [])).2.count
          (1, ServerMessage.GetItem 7) = 0 ∧
     (∀ c, (write_all (fun c => c == 1) (ServerMessage.GetItem 7)
        (Room.mk "" [(0, some (Player.new 1)), (1, some (Player.new 2)), (2, none)] [] [])).2.count
          (c, ServerMessage.GetItem 7) ≤ 1)) :=
  ⟨⟨by decide, by decide, by decide, by decide, by decide⟩,
   C6_broadcast_failure_isolation
     (Room.mk "" [(0, some (Player.new 1)), (1, some (Player.new 2)), (2, none)] [] [])
     (fun c => c == 1) 1 (some (Player.new 2)) (ServerMessage.GetItem 7)
     (by decide) (by decide) (by decide) (by decide) (by decide)⟩

theorem write_queues (fails : SocketId → Bool) (st : Room) (c : SocketId)
    (msg : ServerMessage) :
    (write fails st c msg).1.base_queue = st.base_queue ∧
    (write fails st c msg).1.player_queues = st.player_queues := by
  rw [write]
  cases hg : st.getClient c with
  | none => exact ⟨rfl, rfl⟩
  | some pl =>
    by_cases hf : fails c
    · rw [if_pos hf, remove_client]
      exact ⟨(removeClientAux fails st c).property.2.2.1,
        (removeClientAux fails st c).property.2.2.2.1⟩
    · rw [if_neg hf]
      exact ⟨rfl, rfl⟩

theorem writeEach_queues (fails : SocketId → Bool) (msg : ServerMessage) :
    ∀ (targets : List SocketId) (st : Room) (log0 : Log),
    (targets.foldl
      (fun acc t =>
        match write fails acc.1 t msg with
        | (st1, log1) => (st1, acc.2 ++ log1))
      (st, log0)).1.base_queue = st.base_queue ∧
    (targets.foldl
      (fun acc t =>
        match write fails acc.1 t msg with
        | (st1, log1) => (st1, acc.2 ++ log1))
      (st, log0)).1.player_queues = st.player_queues := by
  intro targets
  induction targets with
  | nil => intro st log0; exact ⟨rfl, rfl⟩
  | cons t ts ih =>
    intro st log0
    simp only [List.foldl_cons]
    have hw := write_queues fails st t msg
    rcases hwr : write fails st t msg with ⟨st1, log1⟩
    rw [hwr] at hw
    have := ih st1 (log0 ++ log1)
    exact ⟨this.1.trans hw.1, this.2.trans hw.2⟩

theorem QueueInv_of_eq (kindOf : Nat → Nat → Nat) (st1 st2 : Room)
    (hb : st2.base_queue = st1.base_queue)
    (hq : st2.player_queues = st1.player_queues)
    (h : QueueInv kindOf st1) : QueueInv kindOf st2 := by
  unfold QueueInv at h ⊢
  rw [hb, hq]
  exact h

theorem nodup_concat_pairs {α : Type} [DecidableEq α] (l : List α) (a : α)
    (hnd : l.Nodup) (ha : a ∉ l) : (l ++ [a]).Nodup := by
  rw [List.nodup_append]
  exact ⟨hnd, List.nodup_singleton a, fun x hx hxa => ha (by
    have : x = a := by simpa using hxa
    rwa [← this])⟩

/-- Appending a fresh shared item preserves the queue invariant. -/
theorem QueueInv_shared_push (kindOf : Nat → Nat → Nat) (st : Room)
    (s k kind : Nat) (hInv : QueueInv kindOf st)
    (hkOf : kind = kindOf s k) (hkT : kind = TRIFORCE_PIECE)
    (hguard : st.base_queue.any (fun it => it.source == s && it.key == k) = false) :
    QueueInv kindOf (Room.mk st.password st.clients
      (st.base_queue ++ [Item.mk s k kind])
      (st.player_queues.map (fun q => (q.1, q.2 ++ [Item.mk s k kind])))) := by
  obtain ⟨h1, h2, h3, h4, h5, h6⟩ := hInv
  have hpair_not : (s, k) ∉ itemPairs st.base_queue := by
    intro hmem
    obtain ⟨it, hit, heq⟩ := List.mem_map.mp hmem
    have hs : it.source = s := by injection heq
    have hk : it.key = k := by injection heq
    have := List.any_eq_false.mp hguard it hit
    simp [hs, hk] at this
  refine ⟨?_, ?_, ?_, ?_, ?_, ?_⟩
  · intro it hit
    rcases List.mem_append.mp hit with h | h
    · exact h1 it h
    · have : it = Item.mk s k kind := by simpa using h
      rw [this, ← hkT]
  · show (itemPairs (st.base_queue ++ [Item.mk s k kind])).Nodup
    unfold itemPairs
    rw [List.map_append]
    exact nodup_concat_pairs _ _ h2 hpair_not
  · intro q' hq'
    obtain ⟨q0, hq0, heq⟩ := List.mem_map.mp hq'
    rw [← heq]
    show (q0.2 ++ [Item.mk s k kind]).filter (fun it => it.kind == TRIFORCE_PIECE) =
      st.base_queue ++ [Item.mk s k kind]
    rw [List.filter_append, h3 q0 hq0]
    congr 1
    rw [List.filter_cons_of_pos (by simp [hkT])]
    rfl
  · intro q' hq'
    obtain ⟨q0, hq0, heq⟩ := List.mem_map.mp hq'
    rw [← heq]
    show (itemPairs (q0.2 ++ [Item.mk s k kind])).Nodup
    unfold itemPairs
    rw [List.map_append]
    refine nodup_concat_pairs _ _ (h4 q0 hq0) ?_
    intro hmem
    obtain ⟨it, hit, hpr⟩ := List.mem_map.mp hmem
    have hs : it.source = s := by injection hpr
    have hk : it.key = k := by injection hpr
    have hkit : it.kind = TRIFORCE_PIECE := by
      rw [h6 q0 hq0 it hit, hs, hk, ← hkOf, hkT]
    have hinf : it ∈ q0.2.filter (fun it => it.kind == TRIFORCE_PIECE) :=
      List.mem_filter.mpr ⟨hit, by simp [hkit]⟩
    rw [h3 q0 hq0] at hinf
    exact hpair_not (by
      refine List.mem_map.mpr ⟨it, hinf, ?_⟩
      rw [hs, hk])
  · intro it hit
    rcases List.mem_append.mp hit with h | h
    · exact h5 it h
    · have : it = Item.mk s k kind := by simpa using h
      rw [this]
      exact hkOf
  · intro q' hq' it hit
    obtain ⟨q0, hq0, heq⟩ := List.mem_map.mp hq'
    rw [← heq] at hit
    rcases List.mem_append.mp hit with h | h
    · exact h6 q0 hq0 it h
    · have : it = Item.mk s k kind := by simpa using h
      rw [this]
      exact hkOf

theorem lookupQueue_mem (st : Room) (w : World) (q0 : List Item)
    (h : st.lookupQueue w = some q0) : ∃ e ∈ st.player_queues, e.2 = q0 := by
  simp only [Room.lookupQueue, Option.map_eq_some'] at h
  obtain ⟨e, he, hsnd⟩ := h
  exact ⟨e, List.mem_of_find?_eq_some he, hsnd⟩

/-- Queueing a fresh world-specific item (forking on first write) preserves
the queue invariant. -/
theorem QueueInv_world_push (kindOf : Nat → Nat → Nat) (st : Room)
    (s k kind tw : Nat) (hInv : QueueInv kindOf st)
    (hkOf : kind = kindOf s k) (hkT : kind ≠ TRIFORCE_PIECE)
    (hguard : (match st.lookupQueue tw with
               | some q => q.any (fun it => it.source == s && it.key == k)
               | none => false) = false) :
    QueueInv kindOf (st.pushWorldQueue tw (Item.mk s k kind)) := by
  obtain ⟨h1, h2, h3, h4, h5, h6⟩ := hInv
  rw [Room.pushWorldQueue]
  cases hlook : st.lookupQueue tw with
  | some q0 =>
    rw [hlook] at hguard
    obtain ⟨e0, he0, he0q⟩ := lookupQueue_mem st tw q0 hlook
    have hq0filter : q0.filter (fun it => it.kind == TRIFORCE_PIECE) = st.base_queue := by
      rw [← he0q]
      exact h3 e0 he0
    have hq0nd : (itemPairs q0).Nodup := by
      rw [← he0q]
      exact h4 e0 he0
    have hq0kind : ∀ it ∈ q0, it.kind = kindOf it.source it.key := by
      intro it hit
      refine h6 e0 he0 it ?_
      rwa [he0q]
    have hpair_not : (s, k) ∉ itemPairs q0 := by
      intro hmem
      obtain ⟨it, hit, hpr⟩ := List.mem_map.mp hmem
      have hs : it.source = s := by injection hpr
      have hk : it.key = k := by injection hpr
      have := List.any_eq_false.mp hguard it hit
      simp [hs, hk] at this
    refine ⟨h1, h2, ?_, ?_, h5, ?_⟩
    · intro e' he'
      obtain ⟨e1, he1, heq⟩ := List.mem_map.mp he'
      by_cases hw : e1.1 == tw
      · rw [if_pos hw] at heq
        rw [← heq]
        show (q0 ++ [Item.mk s k kind]).filter (fun it => it.kind == TRIFORCE_PIECE) =
          st.base_queue
        rw [List.filter_append, hq0filter, List.filter_cons_of_neg (by simp [hkT])]
        simp
      · rw [if_neg hw] at heq
        rw [← heq]
        exact h3 e1 he1
    · intro e' he'
      obtain ⟨e1, he1, heq⟩ := List.mem_map.mp he'
      by_cases hw : e1.1 == tw
      · rw [if_pos hw] at heq
        rw [← heq]
        show (itemPairs (q0 ++ [Item.mk s k kind])).Nodup
        unfold itemPairs
        rw [List.map_append]
        exact nodup_concat_pairs _ _ hq0nd hpair_not
      · rw [if_neg hw] at heq
        rw [← heq]
        exact h4 e1 he1
    · intro e' he' it hit
      obtain ⟨e1, he1, heq⟩ := List.mem_map.mp he'
      by_cases hw : e1.1 == tw
      · rw [if_pos hw] at heq
        rw [← heq] at hit
        rcases List.mem_append.mp hit with h | h
        · exact hq0kind it h
        · have : it = Item.mk s k kind := by simpa using h
          rw [this]
          exact hkOf
      · rw [if_neg hw] at heq
        rw [← heq] at hit
        exact h6 e1 he1 it hit
  | none =>
    have hpair_not : (s, k) ∉ itemPairs st.base_queue := by
      intro hmem
      obtain ⟨it, hit, hpr⟩ := List.mem_map.mp hmem
      have hs : it.source = s := by injection hpr
      have hk : it.key = k := by injection hpr
      refine hkT ?_
      rw [hkOf, ← hs, ← hk, ← h5 it hit]
      exact h1 it hit
    have hbasefilter : st.base_queue.filter (fun it => it.kind == TRIFORCE_PIECE) =
        st.base_queue :=
      List.filter_eq_self.mpr (fun it hit => by simp [h1 it hit])
    refine ⟨h1, h2, ?_, ?_, h5, ?_⟩
    · intro e' he'
      rcases List.mem_append.mp he' with h | h
      · exact h3 e' h
      · have : e' = (tw, st.base_queue ++ [Item.mk s k kind]) := by simpa using h
        rw [this]
        show (st.base_queue ++ [Item.mk s k kind]).filter
          (fun it => it.kind == TRIFORCE_PIECE) = st.base_queue
        rw [List.filter_append, hbasefilter, List.filter_cons_of_neg (by simp [hkT])]
        simp
    · intro e' he'
      rcases List.mem_append.mp he' with h | h
      · exact h4 e' h
      · have : e' = (tw, st.base_queue ++ [Item.mk s k kind]) := by simpa using h
        rw [this]
        show (itemPairs (st.base_queue ++ [Item.mk s k kind])).Nodup
        unfold itemPairs
        rw [List.map_append]
        exact nodup_concat_pairs _ _ h2 hpair_not
    · intro e' he' it hit
      rcases List.mem_append.mp he' with h | h
      · exact h6 e' h it hit
      · have : e' = (tw, st.base_queue ++ [Item.mk s k kind]) := by simpa using h
        rw [this] at hit
        rcases List.mem_append.mp hit with h' | h'
        · exact h5 it h'
        · have : it = Item.mk s k kind := by simpa using h'
          rw [this]
          exact hkOf

/-- One `queue_item` call whose kind agrees with `kindOf` preserves the queue
invariant, for any failure pattern. -/
theorem queue_item_preserves_QueueInv (fails : SocketId → Bool)
    (kindOf : Nat → Nat → Nat) (st : Room) (a : SocketId) (p : Player)
    (key tw : Nat) (b : Bool) (st' : Room) (log : Log)
    (hga : st.getClient a = some (some p))
    (hInv : QueueInv kindOf st)
    (hres : queue_item fails st a key (kindOf p.world key) tw = some (b, st', log)) :
    QueueInv kindOf st' := by
  unfold queue_item at hres
  simp only [hga] at hres
  by_cases hk : (kindOf p.world key == TRIFORCE_PIECE) = true
  · rw [if_pos hk] at hres
    have hkT : kindOf p.world key = TRIFORCE_PIECE := by simpa using hk
    by_cases hgd : st.base_queue.any
        (fun it => it.source == p.world && it.key == key) = false
    · rw [if_pos (by rw [hgd]; rfl)] at hres
      set item : Item := Item.mk p.world key (kindOf p.world key) with hitem
      set st1 : Room := Room.mk st.password st.clients (st.base_queue ++ [item])
        (st.player_queues.map (fun q => (q.1, q.2 ++ [item]))) with hst1
      set pc : List SocketId := st1.clients.filterMap (fun q =>
        match q.2 with
        | some pl => if pl.world != p.world then some q.1 else none
        | none => none) with hpc
      have hInv1 : QueueInv kindOf st1 :=
        QueueInv_shared_push kindOf st p.world key (kindOf p.world key)
          hInv rfl hkT hgd
      rcases hwe : writeEach fails st1 pc
          (ServerMessage.GetItem (kindOf p.world key)) with ⟨st2, log2⟩
      rw [hwe] at hres
      have hq : (writeEach fails st1 pc
          (ServerMessage.GetItem (kindOf p.world key))).1.base_queue = st1.base_queue ∧
          (writeEach fails st1 pc
            (ServerMessage.GetItem (kindOf p.world key))).1.player_queues =
            st1.player_queues :=
        writeEach_queues fails (ServerMessage.GetItem (kindOf p.world key)) pc st1 []
      rw [hwe] at hq
      have hres' : some (true, st2, log2) = some (b, st', log) := hres
      injection hres' with h1
      injection h1 with hb h2
      injection h2 with hst hlog
      rw [← hst]
      exact QueueInv_of_eq kindOf st1 st2 hq.1 hq.2 hInv1
    · have hgt : st.base_queue.any
          (fun it => it.source == p.world && it.key == key) = true := by
        cases hx : st.base_queue.any (fun it => it.source == p.world && it.key == key)
        · exact absurd hx hgd
        · rfl
      rw [if_neg (by rw [hgt]; simp)] at hres
      have hres' : some (true, st, ([] : Log)) = some (b, st', log) := hres
      injection hres' with h1
      injection h1 with hb h2
      injection h2 with hst hlog
      rw [← hst]
      exact hInv
  · rw [if_neg hk] at hres
    have hkT : kindOf p.world key ≠ TRIFORCE_PIECE := by simpa using hk
    by_cases hgd : (match st.lookupQueue tw with
        | some q => q.any (fun it => it.source == p.world && it.key == key)
        | none => false) = false
    · rw [if_pos (by rw [hgd]; rfl)] at hres
      set item : Item := Item.mk p.world key (kindOf p.world key) with hitem
      set st1 : Room := st.pushWorldQueue tw item with hst1
      have hInv1 : QueueInv kindOf st1 :=
        QueueInv_world_push kindOf st p.world key (kindOf p.world key) tw
          hInv rfl hkT hgd
      cases hfind : st1.clients.find? (fun q =>
          match q.2 with
          | some pl => pl.world == tw
          | none => false) with
      | none =>
        rw [hfind] at hres
        have hres' : some (true, st1, ([] : Log)) = some (b, st', log) := hres
        injection hres' with h1
        injection h1 with hb h2
        injection h2 with hst hlog
        rw [← hst]
        exact hInv1
      | some tc =>
        rw [hfind] at hres
        have hres2 : some (true,
            (write fails st1 tc.1 (ServerMessage.GetItem (kindOf p.world key))).1,
            (write fails st1 tc.1 (ServerMessage.GetItem (kindOf p.world key))).2) =
            some (b, st', log) := hres
        have hq := write_queues fails st1 tc.1
          (ServerMessage.GetItem (kindOf p.world key))
        injection hres2 with h1
        injection h1 with hb h2
        injection h2 with hst hlog
        rw [← hst]
        exact QueueInv_of_eq kindOf st1 _ hq.1 hq.2 hInv1
    · have hgt : (match st.lookupQueue tw with
          | some q => q.any (fun it => it.source == p.world && it.key == key)
          | none => false) = true := by
        cases hx : (match st.lookupQueue tw with
          | some q => q.any (fun it => it.source == p.world && it.key == key)
          | none => false)
        · exact absurd hx hgd
        · rfl
      rw [if_neg (by rw [hgt]; simp)] at hres
      have hres' : some (true, st, ([] : Log)) = some (b, st', log) := hres
      injection hres' with h1
      injection h1 with hb h2
      injection h2 with hst hlog
      rw [← hst]
      exact hInv

/-- C2 (amended): for every world `w`, `player_queues[w]` never contains two
items with the same (`source`,`key`) after any sequence of `queue_item` calls
in which the kind of every sent item is a function of its (`source`,`key`)
pair, starting from any state satisfying the queue invariant (in particular
the initial room with empty queues). -/
theorem C2_per_world_queue_nodup (fails : SocketId → Bool)
    (kindOf : Nat → Nat → Nat) (st : Room) (hInv : QueueInv kindOf st)
    (cmds : List (SocketId × Nat × World)) :
    ∀ w q, (runQueueItems fails kindOf st cmds).lookupQueue w = some q →
      (itemPairs q).Nodup := by
  have hfinal : ∀ st0 : Room, QueueInv kindOf st0 →
      QueueInv kindOf (runQueueItems fails kindOf st0 cmds) := by
    induction cmds with
    | nil => intro st0 h; exact h
    | cons cmd cmds ih =>
      intro st0 h
      rw [runQueueItems, List.foldl_cons]
      have hstep : QueueInv kindOf (match st0.getClient cmd.1 with
          | some (some p) =>
            match queue_item fails st0 cmd.1 cmd.2.1 (kindOf p.world cmd.2.1) cmd.2.2 with
            | some r => r.2.1
            | none => st0
          | _ => st0) := by
        cases hg : st0.getClient cmd.1 with
        | none => exact h
        | some popt =>
          cases popt with
          | none => exact h
          | some p =>
            show QueueInv kindOf (match queue_item fails st0 cmd.1 cmd.2.1
                (kindOf p.world cmd.2.1) cmd.2.2 with
              | some r => r.2.1
              | none => st0)
            cases hq : queue_item fails st0 cmd.1 cmd.2.1
                (kindOf p.world cmd.2.1) cmd.2.2 with
            | none => exact h
            | some r =>
              exact queue_item_preserves_QueueInv fails kindOf st0 cmd.1 p
                cmd.2.1 cmd.2.2 r.1 r.2.1 r.2.2 hg h (by rw [hq])
      exact ih _ hstep
  intro w q hlq
  obtain ⟨h1, h2, h3, h4, h5, h6⟩ := hfinal st hInv
  obtain ⟨e, he, hsnd⟩ := lookupQueue_mem _ w q hlq
  have := h4 e he
  rwa [hsnd] at this

/-- Counterexample to C2 as stated: a shared `SendItem{key=5, kind=TRIFORCE}`
followed by a world-specific `SendItem{key=5, kind=99}` from the same world
clones the base queue into the new fork for world 2 and then appends, leaving
two items with (`source`,`key`) = (1,5) in `player_queues[2]`. -/
theorem C2_counterexample :
    ((queue_item (fun _ => false) (Room.mk "" [(0, some (Player.new 1))] [] [])
        0 5 TRIFORCE_PIECE 2).bind
      (fun r1 => queue_item (fun _ => false) r1.2.1 0 5 99 2)).elim []
        (fun r2 => itemPairs ((r2.2.1.lookupQueue 2).getD [])) = [(1, 5), (1, 5)] ∧
    ¬ (((queue_item (fun _ => false) (Room.mk "" [(0, some (Player.new 1))] [] [])
        0 5 TRIFORCE_PIECE 2).bind
      (fun r1 => queue_item (fun _ => false) r1.2.1 0 5 99 2)).elim []
        (fun r2 => itemPairs ((r2.2.1.lookupQueue 2).getD []))).Nodup := by
  constructor
  · decide
  · decide

/-- Witness for C2 (amended) at the initial room with one assigned client and
a constant kind assignment. -/
theorem C2_witness :
    QueueInv (fun _ _ => 99) (Room.mk "" [(0, some (Player.new 1))] [] []) ∧
    (∀ w q, (runQueueItems (fun _ => false) (fun _ _ => 99)
        (Room.mk "" [(0, some (Player.new 1))] [] []) [(0, 5, 2)]).lookupQueue w =
          some q → (itemPairs q).Nodup) :=
  ⟨by unfold QueueInv; decide,
   C2_per_world_queue_nodup (fun _ => false) (fun _ _ => 99)
     (Room.mk "" [(0, some (Player.new 1))] [] [])
     (by unfold QueueInv; decide) [(0, 5, 2)]⟩
